import Mathlib

/-!
# Verification of the recipe-extractor backend against its specification

Shallow embedding of the extraction pipeline, text-repair utilities,
route handlers and persistence round-trip of the repository
(`app/api/routes.py`, `app/utils/ollama_utils.py`, `app/utils/youtube_utils.py`,
`app/schemas/schemas.py`, `main_backup.py`), together with theorems settling
the frozen claims about the natural-language specification.

Strings are modelled as `List Char`; Python regex substitutions are embedded
as equivalent character-level scans, documented at each definition.
-/

namespace RecipeX

/-! ## Basic Python string semantics -/

/-- Python `\s` / `str.strip()` whitespace class (ASCII subset actually
exercised by the code: space, tab, newline, carriage return, form feed,
vertical tab). -/
def isPySpace (c : Char) : Bool :=
  c = ' ' || c = '\t' || c = '\n' || c = '\r' || c = '\x0b' || c = '\x0c'

/-- ASCII lowercasing, as applied by `str.lower()` on the ASCII inputs the
code manipulates. -/
def pyLower (c : Char) : Char := c.toLower

def lowerL (s : List Char) : List Char := s.map pyLower

/-- `str.strip()`: drop leading and trailing whitespace. -/
def pyStripL (s : List Char) : List Char :=
  ((s.dropWhile isPySpace).reverse.dropWhile isPySpace).reverse

/-- `a.isPrefixOf`-style check written out: does `s` start with `p`? -/
def leadsWith : List Char → List Char → Bool
  | [], _ => true
  | _ :: _, [] => false
  | p :: ps, c :: cs => p = c && leadsWith ps cs

/-- Case-insensitive `leadsWith` (regex `re.IGNORECASE` on ASCII letters). -/
def ciLeadsWith (p s : List Char) : Bool :=
  leadsWith (lowerL p) (lowerL s)

/-- Python `sub in hay` substring containment. -/
def containsSub (hay sub : List Char) : Bool :=
  match hay with
  | [] => leadsWith sub []
  | _ :: rest => leadsWith sub hay || containsSub rest sub

/-! ## Ingredient cleaner (`main_backup.py`, `clean_ingredients`, lines 43-64)

Each `re.sub` of the source is embedded as a character-level function proved
(or argued in its doc comment) equivalent to the left-to-right,
non-overlapping regex scan. -/

/-- `re.sub(r'[▢□■►•◆]', '', ingredient)`: delete the decorative bullet
glyphs. -/
def isBullet (c : Char) : Bool :=
  c = '▢' || c = '□' || c = '■' || c = '►' || c = '•' || c = '◆'

def subBullets (s : List Char) : List Char := s.filter (fun c => !isBullet c)

/-- `re.sub(r'(\d+)([a-zA-Z])', r'\1 \2', ingredient)`: a digit run
immediately followed by an ASCII letter gets a space inserted before the
letter.  The regex scan is equivalent to inserting one space at every
digit-letter adjacency: each match consumes one letter, which can never be
the digit of a later adjacency. -/
def subDigitLetter : List Char → List Char
  | [] => []
  | c :: rest =>
    if c.isDigit && (match rest.head? with | some b => b.isAlpha | none => false) then
      c :: ' ' :: subDigitLetter rest
    else
      c :: subDigitLetter rest

/-- `re.sub(r'([a-zA-Z])([A-Z])', r'\1 \2', ingredient)`: the scan consumes
both letters of each match and resumes after the second, so `"ABC"` becomes
`"A BC"`; the two-step recursion mirrors that non-overlapping behaviour. -/
def subLowerUpper : List Char → List Char
  | [] => []
  | [a] => [a]
  | a :: b :: rest =>
    if a.isAlpha && b.isUpper then
      a :: ' ' :: b :: subLowerUpper rest
    else
      a :: subLowerUpper (b :: rest)

/-- One unit rule `re.sub(r'(\d+)unit', r'\1 unit', ingredient)`: a space is
inserted between a digit and an immediately following occurrence of the unit
word.  Pointwise insertion is equivalent to the regex scan because a match
consumes only digits plus the (letter-only) unit, which cannot overlap the
digit starting a later match. -/
def subUnit (unit : List Char) : List Char → List Char
  | [] => []
  | c :: rest =>
    if c.isDigit && leadsWith unit rest then
      c :: ' ' :: subUnit unit rest
    else
      c :: subUnit unit rest

/-- `re.sub(r'\s+', ' ', ingredient)`: collapse each maximal whitespace run
to a single space; `inRun` records whether we are inside a run already
emitted. -/
def collapseWs : Bool → List Char → List Char
  | _, [] => []
  | inRun, c :: rest =>
    if isPySpace c then
      if inRun then collapseWs true rest
      else ' ' :: collapseWs true rest
    else
      c :: collapseWs false rest

/-- `clean_ingredients` body applied to one ingredient string, rules in
source order. -/
def cleanOne (s : List Char) : List Char :=
  let s1 := subBullets s
  let s2 := subDigitLetter s1
  let s3 := subLowerUpper s2
  let s4 := subUnit "tbsp".data s3
  let s5 := subUnit "tsp".data s4
  let s6 := subUnit "cup".data s5
  let s7 := subUnit "g".data s6
  let s8 := subUnit "oz".data s7
  let s9 := subUnit "ml".data s8
  let s10 := subUnit "lb".data s9
  pyStripL (collapseWs false s10)

/-- `clean_ingredients(ingredients)` (`main_backup.py` lines 43-64). -/
def cleanIngredients (l : List String) : List String :=
  l.map (fun s => String.mk (cleanOne s.data))

/-! ## Instruction filter (`main_backup.py`, `filter_instructions`, lines 66-77) -/

def nutritionalKeywords : List (List Char) :=
  ["kcal".data, "fat".data, "saturates".data, "carbs".data,
   "sugars".data, "fibre".data, "protein".data, "salt".data]

/-- `re.match(r'^(kcal|fat|saturates|carbs|sugars|fibre|protein|salt)', instr,
re.IGNORECASE)`: anchored at the start of the raw (untrimmed) line. -/
def nutritionalMatch (instr : List Char) : Bool :=
  nutritionalKeywords.any (fun kw => ciLeadsWith kw instr)

/-- `filter_instructions(instructions, ingredients)`. -/
def filterInstructions (instructions ingredients : List String) : List String :=
  instructions.filter (fun instr =>
    !(ingredients.any (fun ing =>
        lowerL (pyStripL instr.data) = lowerL (pyStripL ing.data))) &&
    !(nutritionalMatch instr.data))



def nonWsF (c : Char) : Bool := !isPySpace c

/-- Drop condition as worded by the specification (claim C5): drop a line
that, after trimming and case-folding, equals some ingredient line, or that
starts (case-insensitively, anchored at line start) with one of the
nutritional keywords. -/
def dropSpecB (instr : String) (ingredients : List String) : Bool :=
  ingredients.any (fun ing => lowerL (pyStripL instr.data) = lowerL (pyStripL ing.data)) ||
  nutritionalKeywords.any (fun kw => ciLeadsWith kw instr.data)


/-! ## Free-text recovery parser (`main_backup.py`,
`parse_unstructured_recipe_text`, lines 180-239)

Each regex of the source is embedded as a character-level search with the
same leftmost-match, alternation-order and backtracking behaviour, written
out per pattern family and documented at each definition. -/

/-- Result record of the recovery parser and of
`extract_recipe_from_llm_response`. -/
structure RecipeData where
  title : String
  ingredients : List String
  instructions : List String
deriving DecidableEq, Repr

/-- Match `\s*([^\n]+)` at the start of `t`, with the greedy-then-backtrack
behaviour of the regex engine: the whitespace run is consumed greedily; if
the following character is a newline or the end of input, the engine backs
up to the last non-newline whitespace character, which then forms a
one-character group.  Returns the group and the remaining input after it. -/
def tryWsLine (t : List Char) : Option (List Char × List Char) :=
  let w := t.takeWhile isPySpace
  let r := t.dropWhile isPySpace
  match r with
  | c :: _ =>
    if c = '\n' then
      match w.reverse.dropWhile (fun x => x = '\n') with
      | [] => none
      | x :: _ => some ([x], (w.reverse.takeWhile (fun x => x = '\n')).reverse ++ r)
    else
      some (r.takeWhile (fun x => !(x = '\n')), r.dropWhile (fun x => !(x = '\n')))
  | [] =>
    match w.reverse.dropWhile (fun x => x = '\n') with
    | [] => none
    | x :: _ => some ([x], (w.reverse.takeWhile (fun x => x = '\n')).reverse)

/-- Remainders of `t` after each label (in alternation order) that matches
case-insensitively at the start of `t`. -/
def tryLabelsAt (labels : List (List Char)) (t : List Char) : List (List Char) :=
  labels.filterMap (fun L => if ciLeadsWith L t then some (t.drop L.length) else none)

/-- First candidate remainder on which `\s*([^\n]+)` matches; returns its
group. -/
def tryCandidates : List (List Char) → Option (List Char)
  | [] => none
  | t :: more =>
    match tryWsLine t with
    | some (g, _) => some g
    | none => tryCandidates more

/-- `re.search` for a pattern of shape `LABELS\s*([^\n]+)`: scan positions
left to right, try the labels in alternation order, backtracking into the
next label or position when the tail fails. -/
def searchWsLineWith (startCands : List Char → List (List Char)) : List Char → Option (List Char)
  | [] => none
  | c :: rest =>
    match tryCandidates (startCands (c :: rest)) with
    | some g => some g
    | none => searchWsLineWith startCands rest

/-- End-of-section alternation `(?:END1|END2|...|$)` where `$` (without
`re.MULTILINE`) matches at the end of input or just before a final
newline. -/
def endMatches (endLabels : List (List Char)) (rem : List Char) : Bool :=
  endLabels.any (fun e => ciLeadsWith e rem) || rem.isEmpty || rem = ['\n']

/-- Non-greedy `(.+?)` with `re.DOTALL` before an end alternation: consume
the minimal non-empty run of characters after which an end label or `$`
matches.  `acc` holds the group so far, reversed. -/
def sectionBody (endLabels : List (List Char)) : List Char → List Char → Option (List Char)
  | acc, rem =>
    if endMatches endLabels rem then some acc.reverse
    else
      match rem with
      | [] => none
      | c :: rest => sectionBody endLabels (c :: acc) rest

/-- `(.+?)` requires at least one character before the end check. -/
def findSectionBody (endLabels : List (List Char)) (t : List Char) : Option (List Char) :=
  match t with
  | [] => none
  | c :: rest => sectionBody endLabels [c] rest

def trySectionCandidates (endLabels : List (List Char)) : List (List Char) → Option (List Char)
  | [] => none
  | t :: more =>
    match findSectionBody endLabels t with
    | some b => some b
    | none => trySectionCandidates endLabels more

/-- `re.search` for a section pattern `START(.+?)(?:END|$)` with
`re.DOTALL | re.IGNORECASE`: leftmost start match wins, labels tried in
alternation order. -/
def searchSectionWith (startCands : List Char → List (List Char))
    (endLabels : List (List Char)) : List Char → Option (List Char)
  | [] => none
  | c :: rest =>
    match trySectionCandidates endLabels (startCands (c :: rest)) with
    | some b => some b
    | none => searchSectionWith startCands endLabels rest

/-- Start matcher for the markdown-H2 patterns `##\s*WORD(.+?)(?:##|$)`:
literal `##`, greedy whitespace (the words start with non-whitespace, so the
greedy skip is exact), then one of the words, case-insensitively. -/
def tryHashStarts (words : List (List Char)) (t : List Char) : List (List Char) :=
  if leadsWith "##".data t then
    let t2 := (t.drop 2).dropWhile isPySpace
    words.filterMap (fun w => if ciLeadsWith w t2 then some (t2.drop w.length) else none)
  else []

/-- Title extraction: the four `title_patterns` tried in source order; the
final pattern `(.*?)(?:\n|$)` always matches and yields the first line. -/
def extractTitle (text : List Char) : String :=
  match searchWsLineWith (tryLabelsAt ["Recipe Name:".data, "Title:".data, "Recipe:".data]) text with
  | some g => String.mk (pyStripL g)
  | none =>
    match searchWsLineWith (tryLabelsAt ["**Recipe Name:**".data, "**Title:**".data, "**Recipe:**".data]) text with
    | some g => String.mk (pyStripL g)
    | none =>
      match searchWsLineWith (tryLabelsAt ["#".data]) text with
      | some g => String.mk (pyStripL g)
      | none => String.mk (pyStripL (text.takeWhile (fun x => !(x = '\n'))))

/-- The three `ingredients_patterns` tried in source order. -/
def ingredientsSection (text : List Char) : Option (List Char) :=
  match searchSectionWith (tryLabelsAt ["Ingredients:".data, "INGREDIENTS:".data])
      ["Instructions:".data, "INSTRUCTIONS:".data, "Directions:".data, "NOTES:".data] text with
  | some b => some b
  | none =>
    match searchSectionWith (tryLabelsAt ["**Ingredients:**".data, "**INGREDIENTS:**".data])
        ["**Instructions:".data, "**INSTRUCTIONS:".data, "**Directions:".data, "**NOTES:".data] text with
    | some b => some b
    | none =>
      searchSectionWith (tryHashStarts ["Ingredients".data]) ["##".data] text

/-- The three `instructions_patterns` tried in source order. -/
def instructionsSection (text : List Char) : Option (List Char) :=
  match searchSectionWith (tryLabelsAt ["Instructions:".data, "INSTRUCTIONS:".data,
      "Directions:".data, "DIRECTIONS:".data, "Method:".data, "PREPARATION:".data])
      ["Notes:".data, "NOTES:".data, "To Serve:".data] text with
  | some b => some b
  | none =>
    match searchSectionWith (tryLabelsAt ["**Instructions:**".data, "**INSTRUCTIONS:**".data,
        "**Directions:**".data, "**DIRECTIONS:**".data, "**Method:**".data, "**PREPARATION:**".data])
        ["**Notes:".data, "**NOTES:".data, "**To Serve:".data] text with
    | some b => some b
    | none =>
      searchSectionWith
        (tryHashStarts ["Instructions".data, "Directions".data, "Method".data, "Preparation".data])
        ["##".data] text

/-- One list item: bullet alternation `(?:\d+\.|\*|\-)` followed by
`\s*([^\n]+)`. -/
def tryBullet (t : List Char) : Option (List Char) :=
  let ds := t.takeWhile Char.isDigit
  if ds.length > 0 && ((t.drop ds.length).head? = some '.') then
    some (t.drop (ds.length + 1))
  else
    match t with
    | '*' :: rest => some rest
    | '-' :: rest => some rest
    | _ => none

def tryItem (t : List Char) : Option (List Char × List Char) :=
  match tryBullet t with
  | some t2 => tryWsLine t2
  | none => none

/-- Scan for further `(?:^|\n)(?:\d+\.|\*|\-)\s*([^\n]+)` matches past the
start of the text: a match may begin at any literal newline; scanning
resumes after the matched group (non-overlapping `re.findall`).  Fuelled by
the input length: every step either consumes a character or fails. -/
def findItemsGo (fuel : Nat) : List Char → List (List Char) :=
  match fuel with
  | 0 => fun _ => []
  | fuel' + 1 => fun t =>
    match t with
    | [] => []
    | c :: rest =>
      if c = '\n' then
        match tryItem rest with
        | some (g, rem) => g :: findItemsGo fuel' rem
        | none => findItemsGo fuel' rest
      else findItemsGo fuel' rest

/-- `re.findall(r'(?:^|\n)(?:\d+\.|\*|\-)\s*([^\n]+)', s)`: at position 0
the `^` branch is tried first; if it fails the `\n` branch and later
positions are handled by the scanner. -/
def findItems (t : List Char) : List (List Char) :=
  match tryItem t with
  | some (g, rem) => g :: findItemsGo (t.length + 1) rem
  | none => findItemsGo (t.length + 1) t

/-- Python `s.split(sep)` for a one-character separator. -/
def splitOnCharL (sep : Char) : List Char → List (List Char)
  | [] => [[]]
  | c :: rest =>
    if c = sep then [] :: splitOnCharL sep rest
    else
      match splitOnCharL sep rest with
      | h :: t => (c :: h) :: t
      | [] => [[c]]

/-- `parse_unstructured_recipe_text(text)` (`main_backup.py` lines
180-239): title, ingredients section and instructions section extraction;
within a section, list items are preferred, otherwise non-empty lines;
ingredients are passed through `clean_ingredients`. -/
def parseUnstructured (text : List Char) : RecipeData :=
  let title := extractTitle text
  let ingredients :=
    match ingredientsSection text with
    | none => []
    | some secRaw =>
      let sec := pyStripL secRaw
      if sec.length = 0 then []
      else
        let items := findItems sec
        if items.length > 0 then
          cleanIngredients (items.map (fun i => String.mk (pyStripL i)))
        else
          cleanIngredients ((splitOnCharL '\n' sec).filterMap
            (fun line => if (pyStripL line).length > 0 then some (String.mk (pyStripL line)) else none))
  let instructions :=
    match instructionsSection text with
    | none => []
    | some secRaw =>
      let sec := pyStripL secRaw
      if sec.length = 0 then []
      else
        let items := findItems sec
        if items.length > 0 then
          items.map (fun i => String.mk (pyStripL i))
        else
          (splitOnCharL '\n' sec).filterMap
            (fun line => if (pyStripL line).length > 0 then some (String.mk (pyStripL line)) else none)
  ⟨title, ingredients, instructions⟩


/-! ## JSON model (`json.loads` / `json.dumps` collaborator)

A faithful model of the strict JSON subset the code relies on: values,
recursive-descent parsing (fuelled by input length; every recursive call
consumes at least one character, so `length + 1` fuel never runs out), and
the `ensure_ascii` encoder.  Numbers are kept as lexemes: no claim depends
on numeric values.  A lone `\uXXXX` surrogate escape, which Python would
decode to a surrogate code unit that a Lean `Char` cannot represent, decodes
to `'\x00'` here; the encoder never produces one, and no claim exercises
one. -/

inductive JValue where
  | jnull
  | jbool (b : Bool)
  | jnum (lexeme : String)
  | jstr (s : String)
  | jarr (elems : List JValue)
  | jobj (fields : List (String × JValue))
deriving Repr, BEq

/-- JSON whitespace (RFC 8259, as skipped by `json.loads`). -/
def isJsonWs (c : Char) : Bool := c = ' ' || c = '\t' || c = '\n' || c = '\r'

def skipWsJ (s : List Char) : List Char := s.dropWhile isJsonWs

def parseHexDigit (c : Char) : Option Nat :=
  if '0' ≤ c && c ≤ '9' then some (c.toNat - 48)
  else if 'a' ≤ c && c ≤ 'f' then some (c.toNat - 87)
  else if 'A' ≤ c && c ≤ 'F' then some (c.toNat - 55)
  else none

/-- Body of a JSON string literal after the opening quote: decoded
characters and the input after the closing quote.  Strict mode: raw control
characters below `0x20` are rejected; a high-surrogate escape followed by a
`\uXXXX` low-surrogate escape recombines (as in CPython `py_scanstring`);
a high surrogate followed by `\u` with bad hex is an error; otherwise the
lone surrogate value goes through `Char.ofNat` (see the section comment).
Fuelled: each step decodes one character, so `length + 1` fuel suffices. -/
def parseStringBody : Nat → List Char → Option (List Char × List Char)
  | 0, _ => none
  | fuel + 1, s =>
    match s with
    | [] => none
    | c :: rest =>
      if c = '"' then some ([], rest)
      else if c = '\\' then
        match rest with
        | [] => none
        | e :: r =>
          if e = '"' then (parseStringBody fuel r).map (fun p => ('"' :: p.1, p.2))
          else if e = '\\' then (parseStringBody fuel r).map (fun p => ('\\' :: p.1, p.2))
          else if e = '/' then (parseStringBody fuel r).map (fun p => ('/' :: p.1, p.2))
          else if e = 'b' then (parseStringBody fuel r).map (fun p => ('\x08' :: p.1, p.2))
          else if e = 'f' then (parseStringBody fuel r).map (fun p => ('\x0c' :: p.1, p.2))
          else if e = 'n' then (parseStringBody fuel r).map (fun p => ('\n' :: p.1, p.2))
          else if e = 'r' then (parseStringBody fuel r).map (fun p => ('\r' :: p.1, p.2))
          else if e = 't' then (parseStringBody fuel r).map (fun p => ('\t' :: p.1, p.2))
          else if e = 'u' then
            match r with
            | h1 :: h2 :: h3 :: h4 :: r2 =>
              (match parseHexDigit h1, parseHexDigit h2, parseHexDigit h3, parseHexDigit h4 with
              | some a, some b, some c2, some d =>
                if 55296 ≤ ((a * 16 + b) * 16 + c2) * 16 + d ∧
                    ((a * 16 + b) * 16 + c2) * 16 + d < 56320 then
                  match r2 with
                  | x :: y :: rest2 =>
                    if x = '\\' ∧ y = 'u' then
                      match rest2 with
                      | g1 :: g2 :: g3 :: g4 :: r3 =>
                        (match parseHexDigit g1, parseHexDigit g2, parseHexDigit g3,
                            parseHexDigit g4 with
                        | some e1, some e2, some e3, some e4 =>
                          if 56320 ≤ ((e1 * 16 + e2) * 16 + e3) * 16 + e4 ∧
                              ((e1 * 16 + e2) * 16 + e3) * 16 + e4 < 57344 then
                            (parseStringBody fuel r3).map (fun p =>
                              (Char.ofNat (65536 +
                                ((((a * 16 + b) * 16 + c2) * 16 + d) - 55296) * 1024 +
                                ((((e1 * 16 + e2) * 16 + e3) * 16 + e4) - 56320)) :: p.1, p.2))
                          else
                            (parseStringBody fuel r2).map (fun p =>
                              (Char.ofNat (((a * 16 + b) * 16 + c2) * 16 + d) :: p.1, p.2))
                        | _, _, _, _ => none)
                      | _ => none
                    else
                      (parseStringBody fuel r2).map (fun p =>
                        (Char.ofNat (((a * 16 + b) * 16 + c2) * 16 + d) :: p.1, p.2))
                  | _ =>
                    (parseStringBody fuel r2).map (fun p =>
                      (Char.ofNat (((a * 16 + b) * 16 + c2) * 16 + d) :: p.1, p.2))
                else
                  (parseStringBody fuel r2).map (fun p =>
                    (Char.ofNat (((a * 16 + b) * 16 + c2) * 16 + d) :: p.1, p.2))
              | _, _, _, _ => none)
            | _ => none
          else none
      else if c.toNat < 32 then none
      else (parseStringBody fuel rest).map (fun p => (c :: p.1, p.2))

/-- Number lexeme `-?(0|[1-9][0-9]*)(\.[0-9]+)?([eE][+-]?[0-9]+)?`. -/
def parseNumberLex (s : List Char) : Option (List Char × List Char) :=
  let (sign, s1) := match s with
    | '-' :: r => (['-'], r)
    | _ => (([] : List Char), s)
  match s1 with
  | '0' :: r =>
    some (sign ++ ['0'], r)
  | c :: _ =>
    if c.isDigit then
      some (sign ++ s1.takeWhile Char.isDigit, s1.dropWhile Char.isDigit)
    else none
  | [] => none

def parseFracExp (intPart : List Char) (s : List Char) : Option (List Char × List Char) :=
  let (frac, s2) := match s with
    | '.' :: r =>
      let ds := r.takeWhile Char.isDigit
      if ds.length > 0 then ('.' :: ds, r.dropWhile Char.isDigit) else (([] : List Char), s)
    | _ => (([] : List Char), s)
  let (ex, s3) := match s2 with
    | e :: r =>
      if e = 'e' || e = 'E' then
        let (sg, r2) := match r with
          | '+' :: rr => (['+'], rr)
          | '-' :: rr => (['-'], rr)
          | _ => (([] : List Char), r)
        let ds := r2.takeWhile Char.isDigit
        if ds.length > 0 then (e :: sg ++ ds, r2.dropWhile Char.isDigit) else (([] : List Char), s2)
      else (([] : List Char), s2)
    | [] => (([] : List Char), s2)
  some (intPart ++ frac ++ ex, s3)

mutual

/-- One JSON value at the start of `s` (no leading whitespace). -/
def parseValue : Nat → List Char → Option (JValue × List Char)
  | 0, _ => none
  | fuel + 1, s =>
    match s with
    | '"' :: rest =>
      (parseStringBody (rest.length + 1) rest).map (fun p => (.jstr (String.mk p.1), p.2))
    | '{' :: rest =>
      let r1 := skipWsJ rest
      (match r1 with
      | '}' :: r2 => some (.jobj [], r2)
      | _ => parseMembers fuel r1 [])
    | '[' :: rest =>
      let r1 := skipWsJ rest
      (match r1 with
      | ']' :: r2 => some (.jarr [], r2)
      | _ => parseElems fuel r1 [])
    | 't' :: rest => if leadsWith "rue".data rest then some (.jbool true, rest.drop 3) else none
    | 'f' :: rest => if leadsWith "alse".data rest then some (.jbool false, rest.drop 4) else none
    | 'n' :: rest => if leadsWith "ull".data rest then some (.jnull, rest.drop 3) else none
    | 'N' :: rest => if leadsWith "aN".data rest then some (.jnum "NaN", rest.drop 2) else none
    | 'I' :: rest =>
      if leadsWith "nfinity".data rest then some (.jnum "Infinity", rest.drop 7) else none
    | '-' :: 'I' :: rest =>
      if leadsWith "nfinity".data rest then some (.jnum "-Infinity", rest.drop 7) else none
    | _ =>
      match parseNumberLex s with
      | some (ip, r1) =>
        (parseFracExp ip r1).map (fun p => (.jnum (String.mk p.1), p.2))
      | none => none

/-- Members of an object, positioned at a key (whitespace already
skipped). -/
def parseMembers : Nat → List Char → List (String × JValue) → Option (JValue × List Char)
  | 0, _, _ => none
  | fuel + 1, s, acc =>
    match s with
    | '"' :: rest =>
      match parseStringBody (rest.length + 1) rest with
      | some (k, r1) =>
        (match skipWsJ r1 with
        | ':' :: r3 =>
          (match parseValue fuel (skipWsJ r3) with
          | some (v, r4) =>
            (match skipWsJ r4 with
            | ',' :: r6 => parseMembers fuel (skipWsJ r6) (acc ++ [(String.mk k, v)])
            | '}' :: r6 => some (.jobj (acc ++ [(String.mk k, v)]), r6)
            | _ => none)
          | none => none)
        | _ => none)
      | none => none
    | _ => none

/-- Elements of an array, positioned at a value (whitespace already
skipped). -/
def parseElems : Nat → List Char → List JValue → Option (JValue × List Char)
  | 0, _, _ => none
  | fuel + 1, s, acc =>
    match parseValue fuel s with
    | some (v, r1) =>
      (match skipWsJ r1 with
      | ',' :: r2 => parseElems fuel (skipWsJ r2) (acc ++ [v])
      | ']' :: r2 => some (.jarr (acc ++ [v]), r2)
      | _ => none)
    | none => none

end

/-- `json.loads(s)`: parse one value, allowing surrounding whitespace,
requiring the whole input to be consumed. -/
def jsonParse (s : String) : Option JValue :=
  match parseValue (s.data.length + 1) (skipWsJ s.data) with
  | some (v, rest) => if (skipWsJ rest).isEmpty then some v else none
  | none => none

/-- Python `"k" in dict` for a parsed object. -/
def jHasKey (fields : List (String × JValue)) (k : String) : Bool :=
  fields.any (fun kv => kv.fst = k)

/-- Python `dict[k]` / `dict.get(k)` for a parsed object: on duplicate keys
`json.loads` keeps the last value. -/
def jLookup (fields : List (String × JValue)) (k : String) : Option JValue :=
  (fields.reverse.find? (fun kv => kv.fst = k)).map (fun kv => kv.snd)

/-- All-or-nothing extraction of a string list (the elementwise pattern the
routes use on parsed arrays). -/
def strListOf : List JValue → Option (List String)
  | [] => some []
  | .jstr s :: rest => (strListOf rest).map (fun l => s :: l)
  | _ => none

def asStrList (v : JValue) : Option (List String) :=
  match v with
  | .jarr elems => strListOf elems
  | _ => none


/-! ## JSON encoder (`json.dumps` with `ensure_ascii=True`, the default) -/

def natToHexDigit (n : Nat) : Char :=
  if n < 10 then Char.ofNat (48 + n) else Char.ofNat (87 + n)

def hex4 (n : Nat) : List Char :=
  [natToHexDigit (n / 4096 % 16), natToHexDigit (n / 256 % 16),
   natToHexDigit (n / 16 % 16), natToHexDigit (n % 16)]

/-- `json.dumps` escaping of one character: quote and backslash escaped;
`\b \t \n \f \r` shortcuts; other characters outside `0x20`-`0x7e`
escaped as `\uXXXX`, astral characters as a surrogate pair. -/
def encodeJsonChar (c : Char) : List Char :=
  if c = '"' then ['\\', '"']
  else if c = '\\' then ['\\', '\\']
  else if c = '\x08' then ['\\', 'b']
  else if c = '\t' then ['\\', 't']
  else if c = '\n' then ['\\', 'n']
  else if c = '\x0c' then ['\\', 'f']
  else if c = '\r' then ['\\', 'r']
  else if c.toNat < 32 then '\\' :: 'u' :: hex4 c.toNat
  else if c.toNat ≤ 126 then [c]
  else if c.toNat < 65536 then '\\' :: 'u' :: hex4 c.toNat
  else
    ('\\' :: 'u' :: hex4 (55296 + (c.toNat - 65536) / 1024)) ++
    ('\\' :: 'u' :: hex4 (56320 + (c.toNat - 65536) % 1024))

def encodeJsonString (s : String) : List Char :=
  '"' :: (s.data.map encodeJsonChar).flatten ++ ['"']

/-- Elements of `json.dumps(l)` joined by the default separator `", "`. -/
def encStrListBody : List String → List Char
  | [] => []
  | [x] => encodeJsonString x
  | x :: y :: rest => encodeJsonString x ++ ',' :: ' ' :: encStrListBody (y :: rest)

/-- `json.dumps(l)` for a list of strings. -/
def dumpsStrList (l : List String) : String :=
  String.mk ('[' :: encStrListBody l ++ [']'])

/-- `json.loads` of a stored column, coerced to a string list as the
`/recipes` route expects. -/
def loadsStrList (s : String) : Option (List String) :=
  match jsonParse s with
  | some v => asStrList v
  | none => none

/-! ## LLM-response handling, backup pipeline (`main_backup.py`,
`extract_recipe_from_llm_response`, lines 241-260) -/

/-- `re.findall(r'\{[\s\S]*?\}', s)`: non-overlapping blocks from each `{`
to the nearest following `}` (the non-greedy run may cross anything,
including further braces).  Fuelled by input length. -/
def findBraceBlocks (fuel : Nat) : List Char → List (List Char) :=
  match fuel with
  | 0 => fun _ => []
  | fuel' + 1 => fun t =>
    match t with
    | [] => []
    | '{' :: rest =>
      let a := rest.takeWhile (fun c => !(c = '}'))
      (match rest.dropWhile (fun c => !(c = '}')) with
      | '}' :: b => ('{' :: a ++ ['}']) :: findBraceBlocks fuel' b
      | _ => [])
    | _ :: rest => findBraceBlocks fuel' rest

/-- `potential_json.replace('\n', ' ')`. -/
def fixNewlines (b : List Char) : List Char :=
  b.map (fun c => if c = '\n' then ' ' else c)

/-- `re.sub(r',\s*CLOSE', 'CLOSE', s)` for a closing bracket character:
trailing-comma repair.  On a match the scan resumes after the bracket. -/
def subTrailingComma (close : Char) : Nat → List Char → List Char
  | 0, t => t
  | fuel + 1, t =>
    match t with
    | [] => []
    | c :: rest =>
      if c = ',' then
        match rest.dropWhile isPySpace with
        | d :: r3 =>
          if d = close then close :: subTrailingComma close fuel r3
          else c :: subTrailingComma close fuel rest
        | [] => c :: subTrailingComma close fuel rest
      else c :: subTrailingComma close fuel rest

/-- The repair chain applied to one candidate block before `json.loads`. -/
def fixJson (b : List Char) : List Char :=
  let b1 := fixNewlines b
  let b2 := subTrailingComma '}' (b1.length + 1) b1
  subTrailingComma ']' (b2.length + 1) b2

/-- Outcome of one candidate block inside the `for potential_json in
matches` loop. -/
inductive BlockStep where
  /-- Parsed with the three required keys, all fields string-shaped: the
  dict is returned with cleaned ingredients. -/
  | okRec (r : RecipeData)
  /-- Parsed with the three required keys and `clean_ingredients` did not
  raise, but some field is not a string / string list: the Python returns
  the dict as-is; its downstream treatment is outside this string-typed
  model. -/
  | okRaw
  /-- `json.JSONDecodeError`, or a required key missing: `continue` with the
  next block. -/
  | nextBlock
  /-- `clean_ingredients` raised `TypeError` (ingredients not iterable, or
  an element not a string): caught by the outer `except Exception`, which
  abandons the remaining blocks and falls through to the free-text
  parser. -/
  | toFreeText
deriving Repr, BEq, DecidableEq

/-- Keys of a parsed object in Python `dict` iteration order: first
occurrence wins for position, duplicates collapsed. -/
def objKeysGo (seen : List String) : List (String × JValue) → List String
  | [] => []
  | (k, _) :: rest =>
    if seen.contains k then objKeysGo seen rest
    else k :: objKeysGo (k :: seen) rest

def objKeys (fields : List (String × JValue)) : List String := objKeysGo [] fields

/-- What `for ingredient in recipe_data["ingredients"]` iterates when
`clean_ingredients` does not raise `TypeError`: the elements of a list of
strings, the characters of a string, or the keys of a dict; `none` when the
value is a non-string-element list or a non-iterable (number, bool, null),
where `re.sub` or the iteration raises. -/
def cleanableChunks (v : JValue) : Option (List String) :=
  match v with
  | .jarr elems => asStrList (.jarr elems)
  | .jstr s => some (s.data.map (fun c => String.mk [c]))
  | .jobj fs => some (objKeys fs)
  | _ => none

def tryBlockStep (b : List Char) : BlockStep :=
  match jsonParse (String.mk (fixJson b)) with
  | none => .nextBlock
  | some (.jobj fields) =>
    if jHasKey fields "title" && jHasKey fields "ingredients" && jHasKey fields "instructions" then
      match jLookup fields "ingredients" with
      | some ingv =>
        (match cleanableChunks ingv with
        | some ings =>
          (match jLookup fields "title", jLookup fields "instructions" with
          | some (.jstr t), some (.jarr ivs) =>
            (match asStrList (.jarr ivs) with
            | some instrs => .okRec ⟨t, cleanIngredients ings, instrs⟩
            | none => .okRaw)
          | _, _ => .okRaw)
        | none => .toFreeText)
      | none => .nextBlock
    else .nextBlock
  | some _ => .nextBlock

/-- Result of `extract_recipe_from_llm_response`: the function always
returns a dict; `raw` marks the returns whose field shapes fall outside the
string-typed model (see `BlockStep.okRaw`). -/
inductive LlmOut where
  | recipe (r : RecipeData)
  | raw
deriving Repr, BEq, DecidableEq

def llmBlocksLoop (resp : List Char) : List (List Char) → LlmOut
  | [] => .recipe (parseUnstructured resp)
  | b :: more =>
    match tryBlockStep b with
    | .okRec r => .recipe r
    | .okRaw => .raw
    | .nextBlock => llmBlocksLoop resp more
    | .toFreeText => .recipe (parseUnstructured resp)

/-- `extract_recipe_from_llm_response(llm_response)` (`main_backup.py`
lines 241-260): scan the raw text for embedded `{...}` blocks, repair and
retry `json.loads` on each, check the three required keys; on exhaustion or
`TypeError`, fall back to `parse_unstructured_recipe_text` on the whole
response.  The function never reports an error. -/
def extractRecipeFromLlmResponse (resp : String) : LlmOut :=
  llmBlocksLoop resp.data (findBraceBlocks (resp.data.length + 1) resp.data)

/-! ## LLM-response handling, hybrid pipeline (`app/utils/ollama_utils.py`,
`extract_recipe_via_ollama`, lines 76-86) -/

structure HTTPErr where
  status : Nat
  detail : String
deriving Repr, BEq, DecidableEq

/-- The pydantic model `Recipe` of `app/models/recipe.py`: `original_url`
is a required field with no default. -/
structure RecipeModelV where
  title : String
  ingredients : List String
  instructions : List String
  original_url : String
deriving Repr, BEq, DecidableEq

/-- `Recipe(title=..., ingredients=..., instructions=...)` in
`extract_recipe_via_ollama` passes no `original_url`, so pydantic raises
`ValidationError` (message abridged to a fixed rendering). -/
def mkRecipeModelNoUrl (_t : String) (_ings _instrs : List String) :
    Except String RecipeModelV :=
  .error "validation error for Recipe: original_url field required"

/-- `recipe_data.get(k, "")` restricted to string values; non-string values
would be passed on to pydantic, but the construction fails on the missing
`original_url` before their treatment can matter. -/
def getStrD (fields : List (String × JValue)) (k : String) : String :=
  match jLookup fields k with
  | some (.jstr s) => s
  | _ => ""

/-- `recipe_data.get(k, [])` restricted to string-list values (see
`getStrD`). -/
def getStrListD (fields : List (String × JValue)) (k : String) : List String :=
  match jLookup fields k with
  | some v => (asStrList v).getD []
  | none => []

/-- The parsing tail of `extract_recipe_via_ollama` (lines 76-86): strict
`json.loads` on the full response, `.get` defaults for the three fields,
then `Recipe(...)` construction; every exception becomes an HTTP 500
`Error parsing LLM response`.  There is no embedded-block scan and no
free-text recovery in this pipeline; exception messages are abridged. -/
def hybridParseLlmResponse (resp : String) : Except HTTPErr RecipeModelV :=
  match jsonParse resp with
  | some (.jobj fields) =>
    (match mkRecipeModelNoUrl (getStrD fields "title") (getStrListD fields "ingredients")
        (getStrListD fields "instructions") with
    | .ok r => .ok r
    | .error e => .error ⟨500, "Error parsing LLM response: " ++ e⟩)
  | some _ => .error ⟨500, "Error parsing LLM response: AttributeError"⟩
  | none => .error ⟨500, "Error parsing LLM response: JSONDecodeError"⟩


/-! ## Ollama call with timeout (`app/utils/ollama_utils.py`,
`ollama_chat_with_timeout`, lines 14-32)

The worker thread's status at the `thread.join(timeout)` return is the
model's oracle input; the wall-clock bound itself (§5 of the spec) is a
property of the threading runtime outside this embedding. -/

inductive ThreadOutcome where
  /-- The worker finished in time and `ollama_client.chat` returned this
  message content. -/
  | finishedOk (content : String)
  /-- The worker finished in time and `ollama_client.chat` raised, with
  `str(e)` being this message. -/
  | finishedErr (msg : String)
  /-- `thread.is_alive()` after the join: the call is abandoned. -/
  | stillRunning
deriving Repr, BEq, DecidableEq

/-- The result dictionary: `response` is `none` when the key is absent
(the timeout dict `{"success": False, "error": "Request timed out"}` has no
`response` key), `some none` when present holding `None`. -/
structure LlmCallResult where
  success : Bool
  response : Option (Option String)
  error : Option String
deriving Repr, BEq, DecidableEq

def ollamaChatWithTimeout : ThreadOutcome → LlmCallResult
  | .finishedOk c => ⟨true, some (some c), none⟩
  | .finishedErr m => ⟨false, some none, some m⟩
  | .stillRunning => ⟨false, none, some "Request timed out"⟩

/-- Failure handling in the caller (`extract_recipe_via_ollama`, lines
75-76): every unsuccessful result is surfaced as HTTP 500 with the error
message interpolated; nothing but the message distinguishes a timeout. -/
def handleLlmFailure (r : LlmCallResult) : Option HTTPErr :=
  if r.success then none
  else some ⟨500, "LLM processing failed: " ++ r.error.getD "Unknown error"⟩

/-! ## The `/extract-recipe` route (`app/api/routes.py`, `extract_recipe`,
lines 49-76) and the YouTube extractor (`app/utils/youtube_utils.py`,
`extract_youtube_video_details`, lines 9-54)

Collaborators are oracle parameters: the pytubefix video metadata, the
OpenAI chat completion (a function of the prompt), and the
`recipe_scrapers.scrape_me` outcome (`Except` with the exception message
`str(e)` on failure; the library signals an unregistered domain by an
exception whose message contains "not supported").  The route references no
Ollama fallback at all: `extract_recipe_via_ollama` has no caller in the
repository. -/

/-- `app/schemas/schemas.py` `ExtractedRecipe`: note there is no owner
field of any kind. -/
structure ExtractedRecipe where
  title : String
  ingredients : List String
  instructions : List String
  original_url : Option String
  image_url : Option String
deriving Repr, BEq, DecidableEq

structure ScrapeSuccess where
  title : String
  ingredients : List String
  instructions_blob : String
  image : String
deriving Repr, BEq, DecidableEq

inductive RouteResult where
  | ok (r : ExtractedRecipe)
  | httpError (e : HTTPErr)
  /-- A collaborator produced values whose shapes fall outside the
  string-typed model (pydantic coercion territory); no claim reaches
  this. -/
  | unmodeled
deriving Repr, BEq, DecidableEq

/-- `[step.strip() for step in raw_instructions.split("\n") if
step.strip()]` (line 68). -/
def splitInstructions (blob : String) : List String :=
  (((splitOnCharL '\n' blob.data).map (fun s => String.mk (pyStripL s))).filter
    (fun s => s.length > 0))

structure YtVideo where
  title : String
  description : String
  thumbnail_url : String
deriving Repr, BEq, DecidableEq

/-- The OpenAI prompt of `extract_youtube_video_details`, an f-string over
the video description. -/
def ytPrompt (description : String) : String :=
  "\n        Extract the recipe information from the following YouTube video description:\n        " ++
  description ++
  "\n\n        YOU MUST RETURN ONLY VALID JSON in this exact format:\n        \x7b\n          \"title\": \"Recipe Title\",\n          \"ingredients\": [\"ingredient 1\", \"ingredient 2\", ...],\n          \"instructions\": [\"step 1\", \"step 2\", ...]\n        \x7d\n        "

inductive YtResult where
  | ok (r : ExtractedRecipe)
  /-- The wrapping `ValueError` of the function's `except` clause; exception
  messages are abridged. -/
  | err (msg : String)
  | unmodeled
deriving Repr, BEq, DecidableEq

/-- `extract_youtube_video_details(url)` with the video metadata and the
OpenAI completion as oracles: the completion is parsed as strict JSON; the
`.get` defaults fall back to the video title and empty lists; the video
thumbnail becomes `image_url` and the URL `original_url`.  Any exception is
wrapped into `ValueError("Failed to extract YouTube video details: ...")`. -/
def extractYoutubeVideoDetails (url : String) (video : YtVideo)
    (openaiResp : String → String) : YtResult :=
  let content := openaiResp (ytPrompt video.description)
  match jsonParse content with
  | some (.jobj fields) =>
    let tOpt : Option String :=
      match jLookup fields "title" with
      | some (.jstr s) => some s
      | none => some video.title
      | some _ => none
    let ingsOpt : Option (List String) :=
      match jLookup fields "ingredients" with
      | some v => asStrList v
      | none => some []
    let insOpt : Option (List String) :=
      match jLookup fields "instructions" with
      | some v => asStrList v
      | none => some []
    (match tOpt, ingsOpt, insOpt with
    | some t, some ings, some ins =>
      .ok ⟨t, ings, ins, some url, some video.thumbnail_url⟩
    | _, _, _ => .unmodeled)
  | some _ => .err "Failed to extract YouTube video details: AttributeError"
  | none => .err "Failed to extract YouTube video details: JSONDecodeError"

/-- The `except Exception` clause of the route (lines 70-76): branch on
whether the lowercased `str(e)` contains the substring "not supported". -/
def routeCatch (m : String) : RouteResult :=
  if containsSub (lowerL m.data) "not supported".data then
    .httpError ⟨400, "This website is not supported right now. Please try another one."⟩
  else
    .httpError ⟨400, "Error extracting recipe: " ++ m⟩

/-- The message of the `HTTPException(403, ...)` raised inside the `try`
for a caller outside `ALLOWED_GPT_EMAILS` (starlette renders it as
`"403: <detail>"`); it is caught by the route's own `except Exception`. -/
def forbiddenMsg : String := "403: You are not allowed to use this feature."

/-- `extract_recipe` (`app/api/routes.py` lines 49-76). -/
def extractRecipeRoute (allowedEnv : String) (userEmail : String) (url : String)
    (video : YtVideo) (openaiResp : String → String)
    (scrape : Except String ScrapeSuccess) : RouteResult :=
  if containsSub url.data "youtube.com".data || containsSub url.data "youtu.be".data then
    if ((splitOnCharL ',' allowedEnv.data).map String.mk).contains userEmail then
      match extractYoutubeVideoDetails url video openaiResp with
      | .ok r => .ok r
      | .err m => routeCatch m
      | .unmodeled => .unmodeled
    else
      routeCatch forbiddenMsg
  else
    match scrape with
    | .ok s =>
      .ok ⟨s.title, s.ingredients, splitInstructions s.instructions_blob,
        some url, some s.image⟩
    | .error m => routeCatch m


/-! ## Persistence round-trip (`app/api/routes.py`, `save_recipe` lines
79-105 and `get_user_recipes` lines 107-126)

The durable store is modelled as the list of recipe rows with an id
counter; the serialized columns hold exactly what `json.dumps` produced and
`json.loads` re-parses on read. -/

/-- A stored `recipes` row (`app/models/models.py`): `ingredients` and
`instructions` columns hold the `json.dumps` strings the route writes. -/
structure RecipeRow where
  id : Nat
  title : String
  ingredients_json : String
  instructions_json : String
  owner_email : String
  original_url : Option String
  image_url : Option String
deriving Repr, BEq, DecidableEq

structure DbState where
  rows : List RecipeRow
  nextId : Nat
deriving Repr, BEq, DecidableEq

/-- The `Recipe` response schema (`app/schemas/schemas.py`). -/
structure RecipeOut where
  id : Nat
  title : String
  ingredients : List String
  instructions : List String
  original_url : Option String
  image_url : Option String
deriving Repr, BEq, DecidableEq

/-- `save_recipe`: the stored row takes `owner_email` from the
authenticated `current_user` (the `ExtractedRecipe` body has no owner field
at all), `id` from the store; the list columns are `json.dumps` of the
request lists; the response echoes the request lists. -/
def saveRecipe (st : DbState) (userEmail : String) (r : ExtractedRecipe) :
    DbState × RecipeOut :=
  let row : RecipeRow :=
    ⟨st.nextId, r.title, dumpsStrList r.ingredients, dumpsStrList r.instructions,
      userEmail, r.original_url, r.image_url⟩
  (⟨st.rows ++ [row], st.nextId + 1⟩,
   ⟨st.nextId, r.title, r.ingredients, r.instructions, r.original_url, r.image_url⟩)

/-- The list comprehension of `get_user_recipes`: `json.loads` of each
stored column; a row whose column does not deserialize to a string list
fails the whole request (`none`). -/
def rowsToRecipes : List RecipeRow → Option (List RecipeOut)
  | [] => some []
  | row :: rest =>
    match loadsStrList row.ingredients_json, loadsStrList row.instructions_json with
    | some ings, some ins =>
      (match rowsToRecipes rest with
      | some outs =>
        some (⟨row.id, row.title, ings, ins, row.original_url, row.image_url⟩ :: outs)
      | none => none)
    | _, _ => none

/-- `get_user_recipes`: the caller's rows, deserialized. -/
def getUserRecipes (st : DbState) (userEmail : String) : Option (List RecipeOut) :=
  rowsToRecipes (st.rows.filter (fun row => row.owner_email == userEmail))

/-! ## Adjacent-pair predicates used to state the Cleaner properties -/

/-- No adjacent pair of characters in the list satisfies `bad`. -/
def noPairB (bad : Char → Char → Bool) : List Char → Bool
  | [] => true
  | [_] => true
  | a :: b :: r => !(bad a b) && noPairB bad (b :: r)

/-- A digit immediately followed by an ASCII letter. -/
def digitAlphaBad (a b : Char) : Bool := a.isDigit && b.isAlpha

/-- Two adjacent whitespace characters. -/
def wsWsBad (a b : Char) : Bool := isPySpace a && isPySpace b

theorem noPairB_cons (bad : Char → Char → Bool) (c : Char) (l : List Char) :
    noPairB bad (c :: l) =
      ((match l.head? with | some d => !bad c d | none => true) && noPairB bad l) := by
  cases l <;> simp [noPairB]

theorem noPairB_tail {bad : Char → Char → Bool} {c : Char} {l : List Char}
    (h : noPairB bad (c :: l) = true) : noPairB bad l = true := by
  cases l with
  | nil => rfl
  | cons d r => simp [noPairB] at h; exact h.2

theorem noPairB_take {bad : Char → Char → Bool} :
    ∀ {l : List Char} {n : Nat}, noPairB bad l = true → noPairB bad (l.take n) = true := by
  intro l
  induction l with
  | nil => intro n _; simp [List.take_nil]; rfl
  | cons c r ih =>
    intro n h
    cases n with
    | zero => rfl
    | succ m =>
      rw [List.take_succ_cons, noPairB_cons, Bool.and_eq_true]
      refine ⟨?_, ih (noPairB_tail h)⟩
      cases m with
      | zero => simp
      | succ k =>
        cases r with
        | nil => simp
        | cons d r' =>
          rw [List.take_succ_cons, List.head?_cons]
          rw [noPairB_cons, List.head?_cons, Bool.and_eq_true] at h
          exact h.1

theorem noPairB_append_left {bad : Char → Char → Bool} {a b : List Char}
    (h : noPairB bad (a ++ b) = true) : noPairB bad a = true := by
  have := noPairB_take (n := a.length) h
  rwa [List.take_left] at this

theorem noPairB_append_right {bad : Char → Char → Bool} :
    ∀ {a b : List Char}, noPairB bad (a ++ b) = true → noPairB bad b = true := by
  intro a
  induction a with
  | nil => intro b h; exact h
  | cons x a' ih => intro b h; exact ih (noPairB_tail h)

theorem noPairB_dropWhile {bad : Char → Char → Bool} {p : Char → Bool} :
    ∀ {s : List Char}, noPairB bad s = true → noPairB bad (s.dropWhile p) = true := by
  intro s
  induction s with
  | nil => intro h; exact h
  | cons c r ih =>
    intro h
    by_cases hp : p c
    · rw [List.dropWhile_cons_of_pos hp]; exact ih (noPairB_tail h)
    · rwa [List.dropWhile_cons_of_neg (by simpa using hp)]

theorem noPairB_pyStripL {bad : Char → Char → Bool} {s : List Char}
    (h : noPairB bad s = true) : noPairB bad (pyStripL s) = true := by
  unfold pyStripL
  have hm : noPairB bad (s.dropWhile isPySpace) = true := noPairB_dropWhile h
  set m := s.dropWhile isPySpace with hmdef
  have hsplit : m.reverse.takeWhile isPySpace ++ m.reverse.dropWhile isPySpace = m.reverse := by
    exact List.takeWhile_append_dropWhile isPySpace m.reverse
  have hm2 : m = (m.reverse.dropWhile isPySpace).reverse ++ (m.reverse.takeWhile isPySpace).reverse := by
    conv_lhs => rw [← List.reverse_reverse m, ← hsplit]
    rw [List.reverse_append]
  rw [hm2] at hm
  exact noPairB_append_left hm

/-! ## Cleaner stage lemmas for claim C4 -/

theorem head?_subDigitLetter (s : List Char) : (subDigitLetter s).head? = s.head? := by
  cases s with
  | nil => rfl
  | cons c r => unfold subDigitLetter; split <;> rfl

theorem digitAlphaBad_space_right (c : Char) : digitAlphaBad c ' ' = false := by
  simp [digitAlphaBad, show (' ' : Char).isAlpha = false from by decide]

theorem digitAlphaBad_space_left (d : Char) : digitAlphaBad ' ' d = false := by
  simp [digitAlphaBad, show (' ' : Char).isDigit = false from by decide]

theorem subDigitLetter_noAdj : ∀ s : List Char, noPairB digitAlphaBad (subDigitLetter s) = true := by
  intro s
  induction s with
  | nil => rfl
  | cons c r ih =>
    unfold subDigitLetter
    split
    · rw [noPairB_cons, Bool.and_eq_true]
      refine ⟨?_, ?_⟩
      · show (!digitAlphaBad c ' ') = true
        simp [digitAlphaBad_space_right]
      · rw [noPairB_cons, Bool.and_eq_true]
        refine ⟨?_, ih⟩
        cases hh : (subDigitLetter r).head? with
        | none => rfl
        | some d =>
          show (!digitAlphaBad ' ' d) = true
          simp [digitAlphaBad_space_left]
    · rename_i hcond
      rw [noPairB_cons, Bool.and_eq_true]
      refine ⟨?_, ih⟩
      rw [head?_subDigitLetter]
      cases hh : r.head? with
      | none => rfl
      | some d =>
        show (!digitAlphaBad c d) = true
        rw [hh] at hcond
        have h3 : (c.isDigit && d.isAlpha) = false := by
          cases hcd : (c.isDigit && d.isAlpha) with
          | false => rfl
          | true => exact absurd hcd hcond
        simp [digitAlphaBad, h3]

theorem head?_subLowerUpper (s : List Char) : (subLowerUpper s).head? = s.head? := by
  match s with
  | [] => rfl
  | [a] => rfl
  | a :: b :: r => unfold subLowerUpper; split <;> rfl

theorem subLowerUpper_noAdj : ∀ s : List Char, noPairB digitAlphaBad s = true →
    noPairB digitAlphaBad (subLowerUpper s) = true := by
  intro s
  induction s using subLowerUpper.induct with
  | case1 => intro h; exact h
  | case2 a => intro h; exact h
  | case3 a b r hcond ih =>
    intro h
    unfold subLowerUpper
    rw [if_pos hcond]
    have hbr : noPairB digitAlphaBad (b :: r) = true := noPairB_tail h
    have hr : noPairB digitAlphaBad r = true := noPairB_tail hbr
    rw [noPairB_cons, Bool.and_eq_true]
    refine ⟨?_, ?_⟩
    · show (!digitAlphaBad a ' ') = true
      simp [digitAlphaBad_space_right]
    rw [noPairB_cons, Bool.and_eq_true]
    refine ⟨?_, ?_⟩
    · show (!digitAlphaBad ' ' b) = true
      simp [digitAlphaBad_space_left]
    rw [noPairB_cons, Bool.and_eq_true]
    refine ⟨?_, ih hr⟩
    rw [head?_subLowerUpper]
    cases hh : r.head? with
    | none => rfl
    | some d =>
      show (!digitAlphaBad b d) = true
      rw [noPairB_cons, hh, Bool.and_eq_true] at hbr
      have h2 : (!digitAlphaBad b d) = true := hbr.1
      exact h2
  | case4 a b r hcond ih =>
    intro h
    unfold subLowerUpper
    rw [if_neg (by simpa using hcond)]
    rw [noPairB_cons, Bool.and_eq_true]
    refine ⟨?_, ih (noPairB_tail h)⟩
    rw [head?_subLowerUpper, List.head?_cons]
    show (!digitAlphaBad a b) = true
    rw [noPairB_cons, List.head?_cons, Bool.and_eq_true] at h
    exact h.1

theorem leadsWith_head {u : Char} {us s : List Char}
    (h : leadsWith (u :: us) s = true) : s.head? = some u := by
  cases s with
  | nil => simp [leadsWith] at h
  | cons c cs =>
    simp only [leadsWith, Bool.and_eq_true, decide_eq_true_eq] at h
    rw [h.1]
    rfl

/-- Once rule 2 has separated every digit from a following letter, the unit
rules of `clean_ingredients` can no longer match: they are the identity. -/
theorem subUnit_id_of_noAdj (u0 : Char) (us : List Char) (hu : u0.isAlpha = true) :
    ∀ s : List Char, noPairB digitAlphaBad s = true → subUnit (u0 :: us) s = s := by
  intro s
  induction s with
  | nil => intro _; rfl
  | cons c r ih =>
    intro h
    unfold subUnit
    split
    · rename_i hcond
      exfalso
      rw [Bool.and_eq_true] at hcond
      have hhd : r.head? = some u0 := leadsWith_head hcond.2
      rw [noPairB_cons, hhd, Bool.and_eq_true] at h
      have h1 : (!digitAlphaBad c u0) = true := h.1
      rw [Bool.not_eq_true'] at h1
      rw [digitAlphaBad, hcond.1, hu] at h1
      simp at h1
    · rw [ih (noPairB_tail h)]

theorem collapseWs_false_head (d : Char) (r : List Char) :
    (collapseWs false (d :: r)).head? = some (if isPySpace d then ' ' else d) := by
  unfold collapseWs
  split <;> rfl

theorem collapseWs_noAdj : ∀ (s : List Char) (b : Bool), noPairB digitAlphaBad s = true →
    noPairB digitAlphaBad (collapseWs b s) = true := by
  intro s
  induction s with
  | nil => intro b _; cases b <;> rfl
  | cons c r ih =>
    intro b h
    unfold collapseWs
    by_cases hc : isPySpace c
    · rw [if_pos hc]
      cases b with
      | true => simp only [if_pos trivial]; exact ih true (noPairB_tail h)
      | false =>
        simp only [Bool.false_eq_true, if_false]
        rw [noPairB_cons, Bool.and_eq_true]
        refine ⟨?_, ih true (noPairB_tail h)⟩
        cases hh : (collapseWs true r).head? with
        | none => rfl
        | some d =>
          show (!digitAlphaBad ' ' d) = true
          simp [digitAlphaBad_space_left]
    · rw [if_neg hc]
      rw [noPairB_cons, Bool.and_eq_true]
      refine ⟨?_, ih false (noPairB_tail h)⟩
      cases r with
      | nil => rfl
      | cons d r' =>
        rw [collapseWs_false_head]
        show (!digitAlphaBad c (if isPySpace d then ' ' else d)) = true
        split
        · simp [digitAlphaBad_space_right]
        · rw [noPairB_cons, List.head?_cons, Bool.and_eq_true] at h
          exact h.1

/-- `collapseWs` output has no two adjacent whitespace characters, and in
run-skipping mode it starts with a non-whitespace character when non-empty. -/
theorem collapseWs_noDoubleWs : ∀ s : List Char,
    (∀ b, noPairB wsWsBad (collapseWs b s) = true) ∧
    (∀ c, (collapseWs true s).head? = some c → isPySpace c = false) := by
  intro s
  induction s with
  | nil => exact ⟨fun b => by cases b <;> rfl, fun c hc => by simp [collapseWs] at hc⟩
  | cons c r ih =>
    by_cases hc : isPySpace c
    · refine ⟨fun b => ?_, fun d hd => ?_⟩
      · unfold collapseWs
        rw [if_pos hc]
        cases b with
        | true => simp only [if_pos trivial]; exact ih.1 true
        | false =>
          simp only [Bool.false_eq_true, if_false]
          rw [noPairB_cons, Bool.and_eq_true]
          refine ⟨?_, ih.1 true⟩
          cases hh : (collapseWs true r).head? with
          | none => rfl
          | some d =>
            show (!wsWsBad ' ' d) = true
            have := ih.2 d hh
            simp [wsWsBad, this]
      · unfold collapseWs at hd
        rw [if_pos hc] at hd
        simp only [if_pos trivial] at hd
        exact ih.2 d hd
    · refine ⟨fun b => ?_, fun d hd => ?_⟩
      · unfold collapseWs
        rw [if_neg hc]
        rw [noPairB_cons, Bool.and_eq_true]
        refine ⟨?_, ih.1 false⟩
        cases r with
        | nil => rfl
        | cons e r' =>
          rw [collapseWs_false_head]
          show (!wsWsBad c (if isPySpace e then ' ' else e)) = true
          have hcf : isPySpace c = false := by simpa using hc
          simp [wsWsBad, hcf]
      · unfold collapseWs at hd
        rw [if_neg hc] at hd
        simp only [List.head?_cons, Option.some_inj] at hd
        subst hd
        simpa using hc

/-! ## Non-whitespace character preservation through the Cleaner -/

theorem filter_subDigitLetter (s : List Char) :
    (subDigitLetter s).filter nonWsF = s.filter nonWsF := by
  induction s with
  | nil => rfl
  | cons c r ih =>
    unfold subDigitLetter
    split
    · simp [List.filter_cons, show nonWsF ' ' = false from by decide, ih]
    · simp [List.filter_cons, ih]

theorem filter_subLowerUpper (s : List Char) :
    (subLowerUpper s).filter nonWsF = s.filter nonWsF := by
  induction s using subLowerUpper.induct with
  | case1 => rfl
  | case2 a => rfl
  | case3 a b r hcond ih =>
    unfold subLowerUpper
    rw [if_pos hcond]
    simp [List.filter_cons, show nonWsF ' ' = false from by decide, ih]
  | case4 a b r hcond ih =>
    unfold subLowerUpper
    rw [if_neg (by simpa using hcond)]
    simp [List.filter_cons, ih]

theorem filter_subUnit (u : List Char) (s : List Char) :
    (subUnit u s).filter nonWsF = s.filter nonWsF := by
  induction s with
  | nil => rfl
  | cons c r ih =>
    unfold subUnit
    split
    · simp [List.filter_cons, show nonWsF ' ' = false from by decide, ih]
    · simp [List.filter_cons, ih]

theorem filter_collapseWs (s : List Char) :
    ∀ b, (collapseWs b s).filter nonWsF = s.filter nonWsF := by
  induction s with
  | nil => intro b; cases b <;> rfl
  | cons c r ih =>
    intro b
    unfold collapseWs
    by_cases hc : isPySpace c
    · rw [if_pos hc]
      have hcf : nonWsF c = false := by simp [nonWsF, hc]
      cases b with
      | true =>
        simp only [if_pos trivial]
        simp [List.filter_cons, ih true, hcf]
      | false =>
        simp only [Bool.false_eq_true, if_false]
        simp [List.filter_cons, show nonWsF ' ' = false from by decide, ih true, hcf]
    · rw [if_neg hc]
      simp [List.filter_cons, ih false]

theorem filter_dropWhileWs (s : List Char) :
    (s.dropWhile isPySpace).filter nonWsF = s.filter nonWsF := by
  induction s with
  | nil => rfl
  | cons c r ih =>
    by_cases hc : isPySpace c
    · rw [List.dropWhile_cons_of_pos hc, ih, List.filter_cons]
      have hcf : nonWsF c = false := by simp [nonWsF, hc]
      rw [hcf]
      simp
    · rw [List.dropWhile_cons_of_neg (by simpa using hc)]

theorem filter_pyStripL (s : List Char) :
    (pyStripL s).filter nonWsF = s.filter nonWsF := by
  unfold pyStripL
  rw [List.filter_reverse, filter_dropWhileWs, List.filter_reverse,
      List.reverse_reverse, filter_dropWhileWs]

/-! ## Character-arithmetic bridging lemmas -/

theorem charOfNatToNat {n : Nat} (h : Nat.isValidChar n) : (Char.ofNat n).toNat = n := by
  unfold Char.ofNat
  rw [dif_pos h]
  rfl

theorem decide_char_eq (c d : Char) : (decide (c = d)) = decide (c.toNat = d.toNat) := by
  apply decide_eq_decide.mpr
  constructor
  · intro h; rw [h]
  · intro h; exact Char.eq_of_val_eq (UInt32.ext h)

theorem isPySpace_toNat (c : Char) :
    isPySpace c = (decide (c.toNat = 32) || decide (c.toNat = 9) || decide (c.toNat = 10)
      || decide (c.toNat = 13) || decide (c.toNat = 11) || decide (c.toNat = 12)) := by
  unfold isPySpace
  rw [decide_char_eq c ' ', decide_char_eq c '\t', decide_char_eq c '\n',
      decide_char_eq c '\r', decide_char_eq c '\x0b', decide_char_eq c '\x0c']
  rfl

/-- `str.lower()` maps whitespace to whitespace and non-whitespace to
non-whitespace. -/
theorem isPySpace_pyLower (c : Char) : isPySpace (pyLower c) = isPySpace c := by
  unfold pyLower Char.toLower
  simp only []
  split
  · rename_i h
    obtain ⟨h1, h2⟩ := h
    have hv : (Char.ofNat (c.toNat + 32)).toNat = c.toNat + 32 :=
      charOfNatToNat (Or.inl (by omega))
    rw [isPySpace_toNat, isPySpace_toNat, hv]
    have hA : ∀ k : Nat, k < 65 → decide (c.toNat = k) = false :=
      fun k hk => decide_eq_false (by omega)
    have hB : ∀ k : Nat, k < 97 → decide (c.toNat + 32 = k) = false :=
      fun k hk => decide_eq_false (by omega)
    rw [hA 32 (by omega), hA 9 (by omega), hA 10 (by omega), hA 13 (by omega),
        hA 11 (by omega), hA 12 (by omega), hB 32 (by omega), hB 9 (by omega),
        hB 10 (by omega), hB 13 (by omega), hB 11 (by omega), hB 12 (by omega)]
  · rfl

/-- Trimming commutes with case-folding. -/
theorem pyStripL_lowerL (x : List Char) : pyStripL (lowerL x) = lowerL (pyStripL x) := by
  have hps : ∀ l : List Char, (l.map pyLower).dropWhile isPySpace =
      (l.dropWhile isPySpace).map pyLower := by
    intro l
    rw [List.dropWhile_map]
    have hfun : (isPySpace ∘ pyLower) = isPySpace := funext isPySpace_pyLower
    rw [hfun]
  unfold pyStripL lowerL
  rw [hps, ← List.map_reverse, hps, ← List.map_reverse]

/-! ## Cleaner end-to-end lemmas -/

theorem cleanOne_noAdj (s : List Char) : noPairB digitAlphaBad (cleanOne s) = true := by
  unfold cleanOne
  simp only []
  apply noPairB_pyStripL
  apply collapseWs_noAdj
  have h2 := subDigitLetter_noAdj (subBullets s)
  have h3 := subLowerUpper_noAdj _ h2
  rw [subUnit_id_of_noAdj 't' _ (by decide) _ h3,
      subUnit_id_of_noAdj 't' _ (by decide) _ h3,
      subUnit_id_of_noAdj 'c' _ (by decide) _ h3,
      subUnit_id_of_noAdj 'g' _ (by decide) _ h3,
      subUnit_id_of_noAdj 'o' _ (by decide) _ h3,
      subUnit_id_of_noAdj 'm' _ (by decide) _ h3,
      subUnit_id_of_noAdj 'l' _ (by decide) _ h3]
  exact h3

theorem cleanOne_noDoubleWs (s : List Char) : noPairB wsWsBad (cleanOne s) = true := by
  unfold cleanOne
  simp only []
  apply noPairB_pyStripL
  exact (collapseWs_noDoubleWs _).1 false

theorem cleanOne_filter (s : List Char) :
    (cleanOne s).filter nonWsF = s.filter (fun c => nonWsF c && !isBullet c) := by
  unfold cleanOne
  simp only []
  rw [filter_pyStripL, filter_collapseWs _ false, filter_subUnit, filter_subUnit,
      filter_subUnit, filter_subUnit, filter_subUnit, filter_subUnit, filter_subUnit,
      filter_subLowerUpper, filter_subDigitLetter]
  unfold subBullets
  rw [List.filter_filter]

/-- C4: for every ingredient string containing a digit immediately followed
by a letter, the cleaned output contains exactly one space at each
digit-letter boundary: the output has no digit-letter adjacency left, no two
adjacent whitespace characters, its non-whitespace characters are exactly
the input's non-whitespace non-bullet characters in order, and whenever a
digit and a letter are separated only by spaces in the output, that
separator is exactly one space (`"2cups flour"` becomes `"2 cups flour"`).
The rules are applied in the fixed source order (`clean_ingredients`,
`main_backup.py` lines 43-64). -/
theorem cleaner_inserts_exactly_one_space (s : List Char)
    (_hadj : noPairB digitAlphaBad s = false) :
    noPairB digitAlphaBad (cleanOne s) = true ∧
    noPairB wsWsBad (cleanOne s) = true ∧
    (cleanOne s).filter nonWsF = s.filter (fun c => nonWsF c && !isBullet c) ∧
    (∀ (pre mid post : List Char) (c d : Char),
      cleanOne s = pre ++ c :: (mid ++ d :: post) →
      c.isDigit = true → d.isAlpha = true → (∀ x ∈ mid, x = ' ') →
      mid.length = 1) := by
  refine ⟨cleanOne_noAdj s, cleanOne_noDoubleWs s, cleanOne_filter s, ?_⟩
  intro pre mid post c d heq hc hd hmid
  have h1 : noPairB digitAlphaBad (c :: (mid ++ d :: post)) = true := by
    have := cleanOne_noAdj s
    rw [heq] at this
    exact noPairB_append_right (a := pre) this
  have h2 : noPairB wsWsBad (c :: (mid ++ d :: post)) = true := by
    have := cleanOne_noDoubleWs s
    rw [heq] at this
    exact noPairB_append_right (a := pre) this
  match mid, hmid with
  | [], _ =>
    exfalso
    rw [List.nil_append] at h1
    rw [noPairB_cons, List.head?_cons, Bool.and_eq_true] at h1
    have : (!digitAlphaBad c d) = true := h1.1
    rw [digitAlphaBad, hc, hd] at this
    simp at this
  | [x], _ => rfl
  | x :: y :: rest, hm =>
    exfalso
    have hx : x = ' ' := hm x (by simp)
    have hy : y = ' ' := hm y (by simp)
    subst hx
    subst hy
    have h3 := noPairB_tail h2
    rw [List.cons_append, List.cons_append] at h3
    rw [noPairB_cons, List.head?_cons, Bool.and_eq_true] at h3
    have : (!wsWsBad ' ' ' ') = true := h3.1
    rw [wsWsBad] at this
    simp [isPySpace] at this

/-- Witness for C4 at the concrete input `"2cups flour"`. -/
theorem cleaner_inserts_exactly_one_space_witness :
    noPairB digitAlphaBad "2cups flour".data = false ∧
    noPairB digitAlphaBad (cleanOne "2cups flour".data) = true ∧
    ([' '] : List Char).length = 1 := by
  have h := cleaner_inserts_exactly_one_space "2cups flour".data (by decide)
  exact ⟨by decide, h.1,
    h.2.2.2 [] [' '] "ups flour".data '2' 'c' (by decide) (by decide) (by decide)
      (by decide)⟩

/-- C5: the instruction filter drops exactly the lines that (after trimming
and case-folding) equal an ingredient line or start with a nutritional
keyword, and consequently no surviving instruction case-insensitively
equals any ingredient (`filter_instructions`, `main_backup.py` lines
66-77). -/
theorem filter_instructions_characterization (ins ings : List String) :
    filterInstructions ins ings = ins.filter (fun i => !dropSpecB i ings) ∧
    ∀ i ∈ filterInstructions ins ings, ∀ g ∈ ings, lowerL i.data ≠ lowerL g.data := by
  constructor
  · unfold filterInstructions dropSpecB
    apply List.filter_congr
    intro x _
    rw [Bool.not_or]
    rfl
  · intro i hi g hg hcontra
    unfold filterInstructions at hi
    rw [List.mem_filter, Bool.and_eq_true] at hi
    have hany : (ings.any (fun ing =>
        lowerL (pyStripL i.data) = lowerL (pyStripL ing.data))) = false := by
      have := hi.2.1
      rwa [Bool.not_eq_true'] at this
    rw [List.any_eq_false] at hany
    apply hany g hg
    have : pyStripL (lowerL i.data) = pyStripL (lowerL g.data) := by rw [hcontra]
    rw [pyStripL_lowerL, pyStripL_lowerL] at this
    simpa using this

/-- Witness for C5 at concrete lists. -/
theorem filter_instructions_characterization_witness :
    filterInstructions ["Mix well", "1 cup flour"] ["1 CUP FLOUR "] = ["Mix well"] ∧
    lowerL "Mix well".data ≠ lowerL "1 CUP FLOUR ".data := by
  have h := filter_instructions_characterization
    ["Mix well", "1 cup flour"] ["1 CUP FLOUR "]
  exact ⟨by decide, h.2 "Mix well" (by decide) "1 CUP FLOUR " (by decide)⟩

/-- C6: on the specification test vector, the free-text recovery parser
(ingredient cleaning included, as in the source) yields title `"Pancakes"`,
ingredients `["1 cup flour", "2 eggs"]` and instructions `["Mix", "Cook"]`
(`parse_unstructured_recipe_text` + `clean_ingredients`, `main_backup.py`
lines 43-64 and 180-239). -/
theorem recovery_parser_pancakes_vector :
    parseUnstructured "Title: Pancakes\nIngredients:\n- 1 cup flour\n- 2eggs\nInstructions:\n1. Mix\n2. Cook".data =
      { title := "Pancakes", ingredients := ["1 cup flour", "2 eggs"],
        instructions := ["Mix", "Cook"] } := by
  decide

/-! ## Claims C2 and C3: JSON recovery order and missing-key handling -/

theorem llmBlocksLoop_all_next (resp : List Char) :
    ∀ bs : List (List Char), (∀ b ∈ bs, tryBlockStep b = .nextBlock) →
      llmBlocksLoop resp bs = .recipe (parseUnstructured resp) := by
  intro bs
  induction bs with
  | nil => intro _; rfl
  | cons b more ih =>
    intro h
    unfold llmBlocksLoop
    rw [h b (by simp)]
    exact ih (fun x hx => h x (by simp [hx]))

/-- Counterexample to C2 as stated: on the empty response every candidate
path is exhausted (there is no embedded `{...}` block and the free-text
parser finds nothing), yet `extract_recipe_from_llm_response` reports no
`MalformedOutput` error — it returns the silently defaulted empty recipe;
and the hybrid fallback (`extract_recipe_via_ollama`) fails immediately on
a non-JSON response without any embedded-block scan or free-text pass. -/
theorem llm_empty_response_silently_defaults :
    extractRecipeFromLlmResponse "" = .recipe ⟨"", [], []⟩ ∧
    findBraceBlocks ("".data.length + 1) "".data = [] ∧
    hybridParseLlmResponse "Title: X" =
      .error ⟨500, "Error parsing LLM response: JSONDecodeError"⟩ := by
  refine ⟨by decide, by decide, ?_⟩
  rfl

/-- C2 (amended): in the backup pipeline the response is scanned for
embedded `{...}` blocks, each repaired (newline replacement,
trailing-comma removal) and retried as JSON with the required-key check
(`tryBlockStep`); only when every candidate block fails does control pass
to the free-text recovery parser, whose (possibly empty-field) result is
returned — no `MalformedOutput` error exists in this code path. -/
theorem llm_recovery_invokes_free_text_after_blocks (s : String)
    (h : ∀ b ∈ findBraceBlocks (s.data.length + 1) s.data, tryBlockStep b = .nextBlock) :
    extractRecipeFromLlmResponse s = .recipe (parseUnstructured s.data) := by
  unfold extractRecipeFromLlmResponse
  exact llmBlocksLoop_all_next s.data _ h

/-- Witness for the amended C2 at a concrete response whose only embedded
block is invalid JSON. -/
theorem llm_recovery_invokes_free_text_after_blocks_witness :
    (∀ b ∈ findBraceBlocks ("x \x7b1\x7d y".data.length + 1) "x \x7b1\x7d y".data,
      tryBlockStep b = .nextBlock) ∧
    extractRecipeFromLlmResponse "x \x7b1\x7d y" =
      .recipe (parseUnstructured "x \x7b1\x7d y".data) := by
  refine ⟨by decide, ?_⟩
  exact llm_recovery_invokes_free_text_after_blocks "x \x7b1\x7d y" (by decide)

/-- Counterexample to C3 as stated: a response that parses as JSON but
misses required keys does not pass control to any recovery in the hybrid
fallback (`extract_recipe_via_ollama`): the `.get` defaults are computed
and the subsequent `Recipe(...)` construction raises (its required
`original_url` is never passed), surfacing a terminal parse error — and the
same terminal error occurs even when all three keys are present, so no
recovery path exists there at all. -/
theorem hybrid_missing_keys_terminal_error :
    jsonParse "\x7b\"title\": \"X\"\x7d" = some (.jobj [("title", .jstr "X")]) ∧
    hybridParseLlmResponse "\x7b\"title\": \"X\"\x7d" =
      .error ⟨500, "Error parsing LLM response: validation error for Recipe: original_url field required"⟩ ∧
    hybridParseLlmResponse
        "\x7b\"title\": \"X\", \"ingredients\": [], \"instructions\": []\x7d" =
      .error ⟨500, "Error parsing LLM response: validation error for Recipe: original_url field required"⟩ := by
  exact ⟨rfl, rfl, rfl⟩

/-- C3 (amended): in the backup pipeline a candidate block that parses as a
JSON object but misses one of the required keys `title`, `ingredients`,
`instructions` is treated as a parse failure — the loop continues with the
next block (and ultimately the free-text parser), with nothing defaulted;
in the hybrid pipeline any JSON-object response, keys present or not, ends
in the terminal `Error parsing LLM response` error. -/
theorem missing_required_keys_are_parse_failures :
    (∀ (b : List Char) (fields : List (String × JValue)),
      jsonParse (String.mk (fixJson b)) = some (.jobj fields) →
      (jHasKey fields "title" && jHasKey fields "ingredients" &&
        jHasKey fields "instructions") = false →
      tryBlockStep b = .nextBlock) ∧
    (∀ (s : String) (fields : List (String × JValue)),
      jsonParse s = some (.jobj fields) →
      hybridParseLlmResponse s =
        .error ⟨500, "Error parsing LLM response: validation error for Recipe: original_url field required"⟩) := by
  constructor
  · intro b fields hparse hkeys
    unfold tryBlockStep
    rw [hparse]
    simp [hkeys]
  · intro s fields hparse
    unfold hybridParseLlmResponse
    rw [hparse]
    rfl

/-- Witness for the amended C3 at concrete inputs. -/
theorem missing_required_keys_are_parse_failures_witness :
    tryBlockStep "\x7b\"a\": \"1\"\x7d".data = .nextBlock ∧
    hybridParseLlmResponse "\x7b\"title\": \"X\"\x7d" =
      .error ⟨500, "Error parsing LLM response: validation error for Recipe: original_url field required"⟩ := by
  constructor
  · exact missing_required_keys_are_parse_failures.1 "\x7b\"a\": \"1\"\x7d".data
      [("a", .jstr "1")] rfl (by decide)
  · exact missing_required_keys_are_parse_failures.2 "\x7b\"title\": \"X\"\x7d"
      [("title", .jstr "X")] rfl

/-! ## Claim C7: timeout result shape -/

/-- Counterexample to C7 as stated: the timed-out call is not a distinct
error kind distinguishable by the caller — an upstream failure whose
message happens to be "Request timed out" is surfaced by the caller as the
very same HTTP 500 error, and both share the `success = False` shape. -/
theorem timeout_not_a_distinct_kind :
    handleLlmFailure (ollamaChatWithTimeout .stillRunning) =
      some ⟨500, "LLM processing failed: Request timed out"⟩ ∧
    handleLlmFailure (ollamaChatWithTimeout (.finishedErr "Request timed out")) =
      handleLlmFailure (ollamaChatWithTimeout .stillRunning) ∧
    (ollamaChatWithTimeout .stillRunning).success =
      (ollamaChatWithTimeout (.finishedErr "upstream unavailable")).success := by
  exact ⟨rfl, rfl, rfl⟩

/-- C7 (amended): when the join times out the call returns
`success = False` with the fixed error string "Request timed out" (and no
response key) — the same `success = False` dictionary shape as an upstream
failure — and the caller surfaces every failure as HTTP 500 `LLM processing
failed: <message>`, so a timeout is distinguishable only by its message
text.  The wall-clock bound itself (return within the 45-second timeout
plus scheduling overhead) is a `thread.join` property outside this
model. -/
theorem timeout_result_shape :
    ollamaChatWithTimeout .stillRunning = ⟨false, none, some "Request timed out"⟩ ∧
    (∀ m, ollamaChatWithTimeout (.finishedErr m) = ⟨false, some none, some m⟩) ∧
    (∀ oc, (ollamaChatWithTimeout oc).success = false →
      handleLlmFailure (ollamaChatWithTimeout oc) =
        some ⟨500, "LLM processing failed: " ++
          ((ollamaChatWithTimeout oc).error.getD "Unknown error")⟩) := by
  refine ⟨rfl, fun m => rfl, fun oc h => ?_⟩
  unfold handleLlmFailure
  rw [h]
  rfl

/-- Witness for the amended C7 at the timed-out outcome. -/
theorem timeout_result_shape_witness :
    handleLlmFailure (ollamaChatWithTimeout .stillRunning) =
      some ⟨500, "LLM processing failed: " ++
        ((ollamaChatWithTimeout .stillRunning).error.getD "Unknown error")⟩ :=
  timeout_result_shape.2.2 .stillRunning rfl

/-! ## Claims C1 and C10: the `/extract-recipe` route -/

/-- Counterexample to C1 as stated: for a URL whose domain has no
registered scraper strategy the route surfaces a terminal HTTP 400 error —
it never proceeds to fetch + preprocess + LLM fallback — and the branch is
selected by substring-matching "not supported" against the lowercased
exception message: two scraper failures differing only in message text are
surfaced differently. -/
theorem unsupported_site_is_terminal :
    extractRecipeRoute "" "u@x.com" "https://example.com/r" ⟨"", "", ""⟩ (fun _ => "")
        (.error "Website example.com is currently not supported.") =
      .httpError ⟨400, "This website is not supported right now. Please try another one."⟩ ∧
    extractRecipeRoute "" "u@x.com" "https://example.com/r" ⟨"", "", ""⟩ (fun _ => "")
        (.error "boom") =
      .httpError ⟨400, "Error extracting recipe: boom"⟩ := by
  exact ⟨by decide, by decide⟩

/-- C1 (amended): for every non-YouTube URL, a scraper exception with
message `m` always yields a terminal HTTP 400 error; the choice between the
canned unsupported-site error and the wrapped message is made by substring
matching "not supported" on the lowercased message; no LLM fallback is
invoked (the route definition consults no such collaborator:
`extract_recipe_via_ollama` has no caller). -/
theorem scraper_failure_branches_on_message_text
    (env user url : String) (video : YtVideo) (o : String → String) (m : String)
    (hyt : (containsSub url.data "youtube.com".data ||
      containsSub url.data "youtu.be".data) = false) :
    extractRecipeRoute env user url video o (.error m) =
      (if containsSub (lowerL m.data) "not supported".data then
        RouteResult.httpError
          ⟨400, "This website is not supported right now. Please try another one."⟩
      else
        RouteResult.httpError ⟨400, "Error extracting recipe: " ++ m⟩) := by
  unfold extractRecipeRoute
  simp only [hyt]
  rfl

/-- Witness for the amended C1 at a concrete unsupported-site failure. -/
theorem scraper_failure_branches_on_message_text_witness :
    (containsSub "https://example.com/r".data "youtube.com".data ||
      containsSub "https://example.com/r".data "youtu.be".data) = false ∧
    extractRecipeRoute "" "u@x.com" "https://example.com/r" ⟨"", "", ""⟩ (fun _ => "")
        (.error "example.com not supported") =
      (if containsSub (lowerL "example.com not supported".data) "not supported".data then
        RouteResult.httpError
          ⟨400, "This website is not supported right now. Please try another one."⟩
      else
        RouteResult.httpError ⟨400, "Error extracting recipe: " ++ "example.com not supported"⟩) := by
  refine ⟨by decide, ?_⟩
  exact scraper_failure_branches_on_message_text "" "u@x.com" "https://example.com/r"
    ⟨"", "", ""⟩ (fun _ => "") "example.com not supported" (by decide)

/-- C10: for every YouTube URL the route never consults the site scraper
(the result is independent of the scraper oracle) and no Ollama fallback
exists in the route; a caller outside the `ALLOWED_GPT_EMAILS` allow-list
is rejected with an error (the internal 403 is caught by the route's own
handler and wrapped into a 400); an allowed caller gets exactly the
OpenAI-based extraction of the video description, which on success carries
the video thumbnail as `image_url` and the URL as `original_url`. -/
theorem youtube_branch_behaviour
    (env user url : String) (video : YtVideo) (o : String → String)
    (s1 s2 : Except String ScrapeSuccess)
    (hyt : (containsSub url.data "youtube.com".data ||
      containsSub url.data "youtu.be".data) = true) :
    extractRecipeRoute env user url video o s1 = extractRecipeRoute env user url video o s2 ∧
    (((splitOnCharL ',' env.data).map String.mk).contains user = false →
      extractRecipeRoute env user url video o s1 =
        .httpError ⟨400, "Error extracting recipe: " ++ forbiddenMsg⟩) ∧
    (((splitOnCharL ',' env.data).map String.mk).contains user = true →
      (∀ r, extractYoutubeVideoDetails url video o = .ok r →
        extractRecipeRoute env user url video o s1 = .ok r ∧
        r.image_url = some video.thumbnail_url ∧ r.original_url = some url)) := by
  refine ⟨?_, ?_, ?_⟩
  · unfold extractRecipeRoute
    simp only [hyt, if_true]
  · intro hmem
    unfold extractRecipeRoute
    simp only [hyt, hmem, if_true, Bool.false_eq_true, if_false]
    decide
  · intro hmem r hok
    refine ⟨?_, ?_⟩
    · unfold extractRecipeRoute
      simp only [hyt, hmem, hok, if_true]
    · unfold extractYoutubeVideoDetails at hok
      dsimp only [] at hok
      split at hok
      · split at hok
        · rw [YtResult.ok.injEq] at hok
          rw [← hok]
          exact ⟨rfl, rfl⟩
        · exact absurd hok (by simp)
      · exact absurd hok (by simp)
      · exact absurd hok (by simp)

/-- Witness for C10 at a concrete allowed caller and YouTube URL. -/
theorem youtube_branch_behaviour_witness :
    extractRecipeRoute "a@b.com,u@x.com" "u@x.com" "https://youtu.be/q" ⟨"VT", "D", "TH"⟩
        (fun _ => "\x7b\"title\": \"Yt\", \"ingredients\": [\"i\"], \"instructions\": [\"s\"]\x7d")
        (.ok ⟨"T", [], "", ""⟩) =
      extractRecipeRoute "a@b.com,u@x.com" "u@x.com" "https://youtu.be/q" ⟨"VT", "D", "TH"⟩
        (fun _ => "\x7b\"title\": \"Yt\", \"ingredients\": [\"i\"], \"instructions\": [\"s\"]\x7d")
        (.error "other") ∧
    extractRecipeRoute "a@b.com,u@x.com" "u@x.com" "https://youtu.be/q" ⟨"VT", "D", "TH"⟩
        (fun _ => "\x7b\"title\": \"Yt\", \"ingredients\": [\"i\"], \"instructions\": [\"s\"]\x7d")
        (.ok ⟨"T", [], "", ""⟩) =
      .ok ⟨"Yt", ["i"], ["s"], some "https://youtu.be/q", some "TH"⟩ ∧
    extractRecipeRoute "a@b.com" "v@x.com" "https://youtu.be/q" ⟨"VT", "D", "TH"⟩
        (fun _ => "") (.ok ⟨"T", [], "", ""⟩) =
      .httpError ⟨400, "Error extracting recipe: " ++ forbiddenMsg⟩ := by
  have h1 := youtube_branch_behaviour "a@b.com,u@x.com" "u@x.com" "https://youtu.be/q"
    ⟨"VT", "D", "TH"⟩
    (fun _ => "\x7b\"title\": \"Yt\", \"ingredients\": [\"i\"], \"instructions\": [\"s\"]\x7d")
    (.ok ⟨"T", [], "", ""⟩) (.error "other") (by decide)
  have h2 := youtube_branch_behaviour "a@b.com" "v@x.com" "https://youtu.be/q"
    ⟨"VT", "D", "TH"⟩ (fun _ => "") (.ok ⟨"T", [], "", ""⟩) (.ok ⟨"T", [], "", ""⟩) (by decide)
  refine ⟨h1.1, ?_, h2.2.1 (by decide)⟩
  exact (h1.2.2 (by decide) ⟨"Yt", ["i"], ["s"], some "https://youtu.be/q", some "TH"⟩ rfl).1

/-! ## JSON round-trip lemmas for claim C8 -/

theorem char_ofNat_toNat (c : Char) : Char.ofNat c.toNat = c := by
  have hv : Nat.isValidChar c.toNat := by
    have h := c.valid
    unfold UInt32.isValidChar at h
    exact h
  apply Char.eq_of_val_eq
  apply UInt32.ext
  exact charOfNatToNat hv

theorem char_ofNat_eq_of_toNat (k : Nat) (c : Char) (h : k = c.toNat) :
    Char.ofNat k = c := by
  subst h
  exact char_ofNat_toNat c

theorem char_toNat_lt (c : Char) : c.toNat < 1114112 := by
  have h : Nat.isValidChar c.toNat := c.valid
  unfold Nat.isValidChar at h
  rcases h with h | h <;> omega

theorem char_toNat_not_surrogate (c : Char) :
    c.toNat < 55296 ∨ 57344 ≤ c.toNat := by
  have h : Nat.isValidChar c.toNat := c.valid
  unfold Nat.isValidChar at h
  rcases h with h | h
  · exact Or.inl h
  · exact Or.inr (by omega)

theorem parseHexDigit_natToHexDigit : ∀ k : Nat, k < 16 → parseHexDigit (natToHexDigit k) = some k := by
  intro k hk
  interval_cases k <;> rfl


/-- Decoding step for a lone `\uXXXX` escape whose value is not a high
surrogate. -/
theorem parseStringBody_u_step {f : Nat} {d1 d2 d3 d4 : Char} {a b c2 d : Nat}
    {tail : List Char}
    (hd1 : parseHexDigit d1 = some a) (hd2 : parseHexDigit d2 = some b)
    (hd3 : parseHexDigit d3 = some c2) (hd4 : parseHexDigit d4 = some d)
    (hrange : ¬(55296 ≤ ((a * 16 + b) * 16 + c2) * 16 + d ∧
      ((a * 16 + b) * 16 + c2) * 16 + d < 56320)) :
    parseStringBody (f + 1) ('\\' :: 'u' :: d1 :: d2 :: d3 :: d4 :: tail) =
      (parseStringBody f tail).map
        (fun p => (Char.ofNat (((a * 16 + b) * 16 + c2) * 16 + d) :: p.1, p.2)) := by
  simp only [parseStringBody]
  rw [hd1, hd2, hd3, hd4]
  simp +decide only [if_true, if_false]
  rw [if_neg hrange]

/-- Decoding step for a high-surrogate escape followed by a low-surrogate
escape: the two recombine into one character. -/
theorem parseStringBody_pair_step {f : Nat} {d1 d2 d3 d4 k1 k2 k3 k4 : Char}
    {a b c2 d e1 e2 e3 e4 : Nat} {tail : List Char}
    (hd1 : parseHexDigit d1 = some a) (hd2 : parseHexDigit d2 = some b)
    (hd3 : parseHexDigit d3 = some c2) (hd4 : parseHexDigit d4 = some d)
    (hk1 : parseHexDigit k1 = some e1) (hk2 : parseHexDigit k2 = some e2)
    (hk3 : parseHexDigit k3 = some e3) (hk4 : parseHexDigit k4 = some e4)
    (hhi : 55296 ≤ ((a * 16 + b) * 16 + c2) * 16 + d ∧
      ((a * 16 + b) * 16 + c2) * 16 + d < 56320)
    (hlo : 56320 ≤ ((e1 * 16 + e2) * 16 + e3) * 16 + e4 ∧
      ((e1 * 16 + e2) * 16 + e3) * 16 + e4 < 57344) :
    parseStringBody (f + 1)
        ('\\' :: 'u' :: d1 :: d2 :: d3 :: d4 :: '\\' :: 'u' :: k1 :: k2 :: k3 :: k4 :: tail) =
      (parseStringBody f tail).map
        (fun p => (Char.ofNat (65536 +
          (((a * 16 + b) * 16 + c2) * 16 + d - 55296) * 1024 +
          (((e1 * 16 + e2) * 16 + e3) * 16 + e4 - 56320)) :: p.1, p.2)) := by
  simp only [parseStringBody]
  rw [hd1, hd2, hd3, hd4]
  simp +decide only [if_true, if_false]
  rw [if_pos hhi]
  rw [hk1, hk2, hk3, hk4]
  simp +decide only [if_true, if_false]
  rw [if_pos hlo]

/-- One decoding step inverts one encoding step, for every character. -/
theorem parseStringBody_enc :
    ∀ (cs : List Char) (rest : List Char) (fuel : Nat),
      fuel ≥ cs.length + 1 →
      parseStringBody fuel ((cs.map encodeJsonChar).flatten ++ '"' :: rest) =
        some (cs, rest) := by
  intro cs
  induction cs with
  | nil =>
    intro rest fuel hf
    obtain ⟨f, rfl⟩ : ∃ f, fuel = f + 1 := ⟨fuel - 1, by omega⟩
    rfl
  | cons c cs ih =>
    intro rest fuel hf
    obtain ⟨f, rfl⟩ : ∃ f, fuel = f + 1 := ⟨fuel - 1, by omega⟩
    have hihf : f ≥ cs.length + 1 := by
      simp only [List.length_cons] at hf
      omega
    have hih := ih rest f hihf
    simp only [List.map_cons, List.flatten_cons, List.append_assoc]
    by_cases h1 : c = '"'
    · subst h1
      show (parseStringBody f ((cs.map encodeJsonChar).flatten ++ '"' :: rest)).map
        (fun p => ('"' :: p.1, p.2)) = some ('"' :: cs, rest)
      rw [hih]
      rfl
    by_cases h2 : c = '\\'
    · subst h2
      show (parseStringBody f ((cs.map encodeJsonChar).flatten ++ '"' :: rest)).map
        (fun p => ('\\' :: p.1, p.2)) = some ('\\' :: cs, rest)
      rw [hih]
      rfl
    by_cases h3 : c = '\x08'
    · subst h3
      show (parseStringBody f ((cs.map encodeJsonChar).flatten ++ '"' :: rest)).map
        (fun p => ('\x08' :: p.1, p.2)) = some ('\x08' :: cs, rest)
      rw [hih]
      rfl
    by_cases h4 : c = '\t'
    · subst h4
      show (parseStringBody f ((cs.map encodeJsonChar).flatten ++ '"' :: rest)).map
        (fun p => ('\t' :: p.1, p.2)) = some ('\t' :: cs, rest)
      rw [hih]
      rfl
    by_cases h5 : c = '\n'
    · subst h5
      show (parseStringBody f ((cs.map encodeJsonChar).flatten ++ '"' :: rest)).map
        (fun p => ('\n' :: p.1, p.2)) = some ('\n' :: cs, rest)
      rw [hih]
      rfl
    by_cases h6 : c = '\x0c'
    · subst h6
      show (parseStringBody f ((cs.map encodeJsonChar).flatten ++ '"' :: rest)).map
        (fun p => ('\x0c' :: p.1, p.2)) = some ('\x0c' :: cs, rest)
      rw [hih]
      rfl
    by_cases h7 : c = '\r'
    · subst h7
      show (parseStringBody f ((cs.map encodeJsonChar).flatten ++ '"' :: rest)).map
        (fun p => ('\r' :: p.1, p.2)) = some ('\r' :: cs, rest)
      rw [hih]
      rfl
    by_cases h8 : c.toNat < 32
    · -- control character, encoded as a lone escape
      rw [show encodeJsonChar c = '\\' :: 'u' :: hex4 c.toNat from by
        unfold encodeJsonChar
        rw [if_neg h1, if_neg h2, if_neg h3, if_neg h4, if_neg h5, if_neg h6, if_neg h7,
          if_pos h8]]
      simp only [hex4, List.cons_append, List.nil_append]
      rw [parseStringBody_u_step
          (parseHexDigit_natToHexDigit (c.toNat / 4096 % 16) (Nat.mod_lt _ (by omega)))
          (parseHexDigit_natToHexDigit (c.toNat / 256 % 16) (Nat.mod_lt _ (by omega)))
          (parseHexDigit_natToHexDigit (c.toNat / 16 % 16) (Nat.mod_lt _ (by omega)))
          (parseHexDigit_natToHexDigit (c.toNat % 16) (Nat.mod_lt _ (by omega)))
          (by omega), hih]
      simp only [Option.map_some', Option.some.injEq, Prod.mk.injEq, List.cons.injEq]
      exact ⟨⟨char_ofNat_eq_of_toNat _ c (by omega), trivial⟩, trivial⟩
    by_cases h9 : c.toNat ≤ 126
    · -- printable ASCII, encoded literally
      rw [show encodeJsonChar c = [c] from by
        unfold encodeJsonChar
        rw [if_neg h1, if_neg h2, if_neg h3, if_neg h4, if_neg h5, if_neg h6, if_neg h7,
          if_neg h8, if_pos h9]]
      simp only [List.cons_append, List.nil_append]
      simp only [parseStringBody]
      rw [if_neg h1, if_neg h2, if_neg h8]
      rw [hih]
      rfl
    by_cases h10 : c.toNat < 65536
    · -- BMP non-ASCII, encoded as a lone escape (never a surrogate value)
      rw [show encodeJsonChar c = '\\' :: 'u' :: hex4 c.toNat from by
        unfold encodeJsonChar
        rw [if_neg h1, if_neg h2, if_neg h3, if_neg h4, if_neg h5, if_neg h6, if_neg h7,
          if_neg h8, if_neg h9, if_pos h10]]
      simp only [hex4, List.cons_append, List.nil_append]
      have hs := char_toNat_not_surrogate c
      rw [parseStringBody_u_step
          (parseHexDigit_natToHexDigit (c.toNat / 4096 % 16) (Nat.mod_lt _ (by omega)))
          (parseHexDigit_natToHexDigit (c.toNat / 256 % 16) (Nat.mod_lt _ (by omega)))
          (parseHexDigit_natToHexDigit (c.toNat / 16 % 16) (Nat.mod_lt _ (by omega)))
          (parseHexDigit_natToHexDigit (c.toNat % 16) (Nat.mod_lt _ (by omega)))
          (by omega), hih]
      simp only [Option.map_some', Option.some.injEq, Prod.mk.injEq, List.cons.injEq]
      exact ⟨⟨char_ofNat_eq_of_toNat _ c (by omega), trivial⟩, trivial⟩
    · -- astral character, encoded as a surrogate pair
      rw [show encodeJsonChar c =
          ('\\' :: 'u' :: hex4 (55296 + (c.toNat - 65536) / 1024)) ++
          ('\\' :: 'u' :: hex4 (56320 + (c.toNat - 65536) % 1024)) from by
        unfold encodeJsonChar
        rw [if_neg h1, if_neg h2, if_neg h3, if_neg h4, if_neg h5, if_neg h6, if_neg h7,
          if_neg h8, if_neg h9, if_neg h10]]
      have hlt := char_toNat_lt c
      simp only [hex4, List.cons_append, List.nil_append, List.append_assoc]
      rw [parseStringBody_pair_step
          (parseHexDigit_natToHexDigit ((55296 + (c.toNat - 65536) / 1024) / 4096 % 16)
            (Nat.mod_lt _ (by omega)))
          (parseHexDigit_natToHexDigit ((55296 + (c.toNat - 65536) / 1024) / 256 % 16)
            (Nat.mod_lt _ (by omega)))
          (parseHexDigit_natToHexDigit ((55296 + (c.toNat - 65536) / 1024) / 16 % 16)
            (Nat.mod_lt _ (by omega)))
          (parseHexDigit_natToHexDigit ((55296 + (c.toNat - 65536) / 1024) % 16)
            (Nat.mod_lt _ (by omega)))
          (parseHexDigit_natToHexDigit ((56320 + (c.toNat - 65536) % 1024) / 4096 % 16)
            (Nat.mod_lt _ (by omega)))
          (parseHexDigit_natToHexDigit ((56320 + (c.toNat - 65536) % 1024) / 256 % 16)
            (Nat.mod_lt _ (by omega)))
          (parseHexDigit_natToHexDigit ((56320 + (c.toNat - 65536) % 1024) / 16 % 16)
            (Nat.mod_lt _ (by omega)))
          (parseHexDigit_natToHexDigit ((56320 + (c.toNat - 65536) % 1024) % 16)
            (Nat.mod_lt _ (by omega)))
          (by constructor <;> omega) (by constructor <;> omega), hih]
      simp only [Option.map_some', Option.some.injEq, Prod.mk.injEq, List.cons.injEq]
      exact ⟨⟨char_ofNat_eq_of_toNat _ c (by omega), trivial⟩, trivial⟩
theorem encodeJsonChar_len_pos (c : Char) : 1 ≤ (encodeJsonChar c).length := by
  unfold encodeJsonChar
  repeat' split
  all_goals simp [hex4]

theorem encBody_len (cs : List Char) :
    cs.length ≤ ((cs.map encodeJsonChar).flatten).length := by
  induction cs with
  | nil => simp
  | cons c cs ih =>
    simp only [List.map_cons, List.flatten_cons, List.length_append, List.length_cons]
    have := encodeJsonChar_len_pos c
    omega

/-- `parseValue` inverts `encodeJsonString` for one string value. -/
theorem parseValue_encodeJsonString (f : Nat) (x : String) (tail : List Char) :
    parseValue (f + 1) (encodeJsonString x ++ tail) = some (.jstr x, tail) := by
  unfold encodeJsonString
  rw [List.cons_append, List.cons_append, List.append_assoc, List.singleton_append]
  show (parseStringBody
      (((x.data.map encodeJsonChar).flatten ++ ('"' : Char) :: tail).length + 1)
      ((x.data.map encodeJsonChar).flatten ++ ('"' : Char) :: tail)).map
      (fun p => (JValue.jstr (String.mk p.1), p.2)) = some (.jstr x, tail)
  rw [parseStringBody_enc x.data tail _ (by
    simp only [List.length_append, List.length_cons]
    have := encBody_len x.data
    omega)]
  rfl

theorem encStrListBody_quote_head (y : String) (ys : List String) :
    ∃ t, encStrListBody (y :: ys) = ('"' : Char) :: t := by
  cases ys with
  | nil => exact ⟨_, rfl⟩
  | cons z zs => exact ⟨_, rfl⟩

theorem encodeJsonString_len (x : String) : 2 ≤ (encodeJsonString x).length := by
  unfold encodeJsonString
  simp

theorem encStrListBody_len (x : String) (xs : List String) :
    xs.length + 2 ≤ (encStrListBody (x :: xs)).length := by
  induction xs generalizing x with
  | nil => simpa using encodeJsonString_len x
  | cons y ys ih =>
    show ys.length + 1 + 2 ≤
      (encodeJsonString x ++ (',' : Char) :: (' ' : Char) :: encStrListBody (y :: ys)).length
    have h1 := encodeJsonString_len x
    have h2 := ih y
    simp only [List.length_append, List.length_cons]
    omega

/-- `parseElems` inverts the encoded element list. -/
theorem parseElems_enc :
    ∀ (xs : List String) (x : String) (acc : List JValue) (f : Nat) (tail : List Char),
      f ≥ xs.length + 1 →
      parseElems (f + 1) (encStrListBody (x :: xs) ++ (']' : Char) :: tail) acc =
        some (.jarr (acc ++ (x :: xs).map .jstr), tail) := by
  intro xs
  induction xs with
  | nil =>
    intro x acc f tail hf
    obtain ⟨g, rfl⟩ : ∃ g, f = g + 1 := ⟨f - 1, by omega⟩
    show (match parseValue (g + 1) (encodeJsonString x ++ (']' : Char) :: tail) with
      | some (v, r1) =>
        (match skipWsJ r1 with
        | ',' :: r2 => parseElems (g + 1) (skipWsJ r2) (acc ++ [v])
        | ']' :: r2 => some (JValue.jarr (acc ++ [v]), r2)
        | _ => none)
      | none => none) = some (.jarr (acc ++ [.jstr x]), tail)
    rw [parseValue_encodeJsonString]
    rfl
  | cons y ys ih =>
    intro x acc f tail hf
    obtain ⟨g, rfl⟩ : ∃ g, f = g + 1 := ⟨f - 1, by omega⟩
    rw [show encStrListBody (x :: y :: ys) =
        encodeJsonString x ++ (',' : Char) :: (' ' : Char) :: encStrListBody (y :: ys)
        from rfl, List.append_assoc]
    show (match parseValue (g + 1) (encodeJsonString x ++
        ((',' : Char) :: (' ' : Char) :: encStrListBody (y :: ys) ++ (']' : Char) :: tail)) with
      | some (v, r1) =>
        (match skipWsJ r1 with
        | ',' :: r2 => parseElems (g + 1) (skipWsJ r2) (acc ++ [v])
        | ']' :: r2 => some (JValue.jarr (acc ++ [v]), r2)
        | _ => none)
      | none => none) = some (.jarr (acc ++ (x :: y :: ys).map .jstr), tail)
    rw [parseValue_encodeJsonString]
    obtain ⟨t, ht⟩ := encStrListBody_quote_head y ys
    have hsk : skipWsJ ((' ' : Char) :: (encStrListBody (y :: ys) ++ (']' : Char) :: tail)) =
        encStrListBody (y :: ys) ++ (']' : Char) :: tail := by
      unfold skipWsJ
      rw [List.dropWhile_cons_of_pos (by decide), ht, List.cons_append,
        List.dropWhile_cons_of_neg (by decide)]
    show (match skipWsJ ((',' : Char) :: (' ' : Char) ::
        (encStrListBody (y :: ys) ++ (']' : Char) :: tail)) with
      | ',' :: r2 => parseElems (g + 1) (skipWsJ r2) (acc ++ [JValue.jstr x])
      | ']' :: r2 => some (JValue.jarr (acc ++ [JValue.jstr x]), r2)
      | _ => none) = some (.jarr (acc ++ (x :: y :: ys).map .jstr), tail)
    rw [show skipWsJ ((',' : Char) :: (' ' : Char) ::
        (encStrListBody (y :: ys) ++ (']' : Char) :: tail)) =
        (',' : Char) :: (' ' : Char) :: (encStrListBody (y :: ys) ++ (']' : Char) :: tail)
        from by
      unfold skipWsJ
      rw [List.dropWhile_cons_of_neg (by decide)]]
    show parseElems (g + 1)
        (skipWsJ ((' ' : Char) :: (encStrListBody (y :: ys) ++ (']' : Char) :: tail)))
        (acc ++ [JValue.jstr x]) = some (.jarr (acc ++ (x :: y :: ys).map .jstr), tail)
    rw [hsk, ih y (acc ++ [JValue.jstr x]) g tail (by
      simp only [List.length_cons] at hf
      omega)]
    simp

theorem strListOf_map_jstr (l : List String) :
    strListOf (l.map .jstr) = some l := by
  induction l with
  | nil => rfl
  | cons x xs ih =>
    show (strListOf (xs.map .jstr)).map (fun l => x :: l) = some (x :: xs)
    rw [ih]
    rfl

theorem parseValue_dumps (x : String) (xs : List String) (f : Nat)
    (hf : f ≥ xs.length + 2) :
    parseValue (f + 1) (('[' : Char) :: (encStrListBody (x :: xs) ++ [(']' : Char)])) =
      some (.jarr ((x :: xs).map .jstr), []) := by
  obtain ⟨g, rfl⟩ : ∃ g, f = g + 1 := ⟨f - 1, by omega⟩
  obtain ⟨t, ht⟩ := encStrListBody_quote_head x xs
  have hsk : skipWsJ (encStrListBody (x :: xs) ++ [(']' : Char)]) =
      encStrListBody (x :: xs) ++ [(']' : Char)] := by
    unfold skipWsJ
    rw [ht, List.cons_append, List.dropWhile_cons_of_neg (by decide)]
  show (match skipWsJ (encStrListBody (x :: xs) ++ [(']' : Char)]) with
    | ']' :: r2 => some (JValue.jarr [], r2)
    | _ => parseElems (g + 1) (skipWsJ (encStrListBody (x :: xs) ++ [(']' : Char)])) []) =
    some (.jarr ((x :: xs).map .jstr), [])
  rw [hsk, ht, List.cons_append]
  show parseElems (g + 1) (('"' : Char) :: (t ++ [(']' : Char)])) [] =
    some (.jarr ((x :: xs).map .jstr), [])
  rw [← List.cons_append, ← ht,
    show ([(']' : Char)] : List Char) = (']' : Char) :: ([] : List Char) from rfl,
    parseElems_enc xs x [] g [] (by omega)]
  simp

/-- The persistence round-trip at the serialization level:
`json.loads(json.dumps(l))` recovers exactly the stored string list. -/
theorem loads_dumps_round (l : List String) : loadsStrList (dumpsStrList l) = some l := by
  cases l with
  | nil => rfl
  | cons x xs =>
    have hlen := encStrListBody_len x xs
    have hparse : jsonParse (dumpsStrList (x :: xs)) =
        some (.jarr ((x :: xs).map .jstr)) := by
      unfold jsonParse dumpsStrList
      show (match parseValue
          ((('[' : Char) :: encStrListBody (x :: xs) ++ [(']' : Char)]).length + 1)
          (skipWsJ (('[' : Char) :: encStrListBody (x :: xs) ++ [(']' : Char)])) with
        | some (v, rest) => if (skipWsJ rest).isEmpty then some v else none
        | none => none) = some (.jarr ((x :: xs).map .jstr))
      rw [show skipWsJ (('[' : Char) :: encStrListBody (x :: xs) ++ [(']' : Char)]) =
          ('[' : Char) :: (encStrListBody (x :: xs) ++ [(']' : Char)]) from by
        unfold skipWsJ
        rw [List.cons_append, List.dropWhile_cons_of_neg (by decide)]]
      rw [show ((('[' : Char) :: encStrListBody (x :: xs) ++ [(']' : Char)]).length + 1) =
          ((encStrListBody (x :: xs)).length + 2) + 1 from by
        simp [List.length_append]]
      rw [parseValue_dumps x xs ((encStrListBody (x :: xs)).length + 2) (by omega)]
      rfl
    show (match jsonParse (dumpsStrList (x :: xs)) with
      | some v => asStrList v
      | none => none) = some (x :: xs)
    rw [hparse]
    show strListOf ((x :: xs).map .jstr) = some (x :: xs)
    exact strListOf_map_jstr (x :: xs)


theorem rowsToRecipes_append (l : List RecipeRow) (row : RecipeRow)
    (ings ins : List String)
    (hi : loadsStrList row.ingredients_json = some ings)
    (hn : loadsStrList row.instructions_json = some ins) :
    rowsToRecipes (l ++ [row]) =
      (rowsToRecipes l).map (fun outs =>
        outs ++ [⟨row.id, row.title, ings, ins, row.original_url, row.image_url⟩]) := by
  induction l with
  | nil =>
    show (match loadsStrList row.ingredients_json, loadsStrList row.instructions_json with
      | some a, some b =>
        (match rowsToRecipes ([] : List RecipeRow) with
        | some outs =>
          some ((⟨row.id, row.title, a, b, row.original_url, row.image_url⟩ :
            RecipeOut) :: outs)
        | none => none)
      | _, _ => none) = _
    rw [hi, hn]
    rfl
  | cons r0 rest ih =>
    show (match loadsStrList r0.ingredients_json, loadsStrList r0.instructions_json with
      | some a, some b =>
        (match rowsToRecipes (rest ++ [row]) with
        | some outs =>
          some ((⟨r0.id, r0.title, a, b, r0.original_url, r0.image_url⟩ :
            RecipeOut) :: outs)
        | none => none)
      | _, _ => none) =
      Option.map (fun outs =>
        outs ++ [(⟨row.id, row.title, ings, ins, row.original_url, row.image_url⟩ :
          RecipeOut)])
      (match loadsStrList r0.ingredients_json, loadsStrList r0.instructions_json with
      | some a, some b =>
        (match rowsToRecipes rest with
        | some outs =>
          some ((⟨r0.id, r0.title, a, b, r0.original_url, r0.image_url⟩ :
            RecipeOut) :: outs)
        | none => none)
      | _, _ => none)
    rw [ih]
    cases h0 : loadsStrList r0.ingredients_json with
    | none => rfl
    | some a =>
      cases h1 : loadsStrList r0.instructions_json with
      | none => rfl
      | some b =>
        cases h2 : rowsToRecipes rest with
        | none => rfl
        | some outs => rfl

/-- C8: for every `ExtractedRecipe`, saving it with `save_recipe` and then
re-fetching the caller-owned rows with `get_user_recipes` yields the previous
list extended by exactly one `Recipe` whose `ingredients` and `instructions`
lists have the same order and the exact same string content as the saved
body (the round trip through `json.dumps` / `json.loads` is the identity on
string lists). -/
theorem save_then_fetch_round_trip (st : DbState) (u : String)
    (r : ExtractedRecipe) (rs : List RecipeOut)
    (h : getUserRecipes st u = some rs) :
    getUserRecipes (saveRecipe st u r).1 u =
      some (rs ++ [⟨st.nextId, r.title, r.ingredients, r.instructions,
        r.original_url, r.image_url⟩]) := by
  show rowsToRecipes (List.filter (fun row => row.owner_email == u)
      (st.rows ++ [(⟨st.nextId, r.title, dumpsStrList r.ingredients,
        dumpsStrList r.instructions, u, r.original_url, r.image_url⟩ :
        RecipeRow)])) = _
  rw [List.filter_append]
  rw [show List.filter (fun row => row.owner_email == u)
      [(⟨st.nextId, r.title, dumpsStrList r.ingredients, dumpsStrList r.instructions,
        u, r.original_url, r.image_url⟩ : RecipeRow)] =
      [(⟨st.nextId, r.title, dumpsStrList r.ingredients, dumpsStrList r.instructions,
        u, r.original_url, r.image_url⟩ : RecipeRow)] from by simp]
  rw [rowsToRecipes_append _ _ r.ingredients r.instructions
      (loads_dumps_round r.ingredients) (loads_dumps_round r.instructions)]
  have h2 : rowsToRecipes (List.filter (fun row => row.owner_email == u) st.rows) =
      some rs := h
  rw [h2]
  rfl

theorem save_then_fetch_round_trip_witness :
    getUserRecipes ⟨[], 0⟩ "ann@example.com" = some [] ∧
    getUserRecipes (saveRecipe ⟨[], 0⟩ "ann@example.com"
        ⟨"Pancakes", ["2 cups flour", "1 tbsp \"raw\" sugar"],
          ["Mix.", "Cook,\nthen serve é 😀"], some "http://x", none⟩).1
      "ann@example.com" =
      some [⟨0, "Pancakes", ["2 cups flour", "1 tbsp \"raw\" sugar"],
        ["Mix.", "Cook,\nthen serve é 😀"], some "http://x", none⟩] :=
  ⟨by decide,
   save_then_fetch_round_trip ⟨[], 0⟩ "ann@example.com"
     ⟨"Pancakes", ["2 cups flour", "1 tbsp \"raw\" sugar"],
       ["Mix.", "Cook,\nthen serve é 😀"], some "http://x", none⟩ [] (by decide)⟩

/-- C9: the stored row written by `save_recipe` takes its `owner_email` from
the authenticated caller, and the owner is independent of the client-supplied
request body: the `ExtractedRecipe` schema has no owner field, so two
requests by the same user with arbitrary different bodies store rows with
the identical owner, always equal to the caller identity. -/
theorem saved_owner_is_caller (st : DbState) (u : String)
    (r1 r2 : ExtractedRecipe) :
    (((saveRecipe st u r1).1.rows.getLast?).map RecipeRow.owner_email = some u) ∧
    (((saveRecipe st u r1).1.rows.getLast?).map RecipeRow.owner_email =
      ((saveRecipe st u r2).1.rows.getLast?).map RecipeRow.owner_email) := by
  constructor
  · show ((st.rows ++ [(⟨st.nextId, r1.title, dumpsStrList r1.ingredients,
        dumpsStrList r1.instructions, u, r1.original_url, r1.image_url⟩ :
        RecipeRow)]).getLast?).map RecipeRow.owner_email = some u
    rw [List.getLast?_concat]
    rfl
  · show ((st.rows ++ [(⟨st.nextId, r1.title, dumpsStrList r1.ingredients,
        dumpsStrList r1.instructions, u, r1.original_url, r1.image_url⟩ :
        RecipeRow)]).getLast?).map RecipeRow.owner_email =
      ((st.rows ++ [(⟨st.nextId, r2.title, dumpsStrList r2.ingredients,
        dumpsStrList r2.instructions, u, r2.original_url, r2.image_url⟩ :
        RecipeRow)]).getLast?).map RecipeRow.owner_email
    rw [List.getLast?_concat, List.getLast?_concat]
    rfl

end RecipeX
